import Mathlib

/-!
# KHARMA: magnetic field seeding, normalisation, beta reduction and stage update

A shallow embedding of `kharma/prob/seed_B.cpp` and `kharma/containers.cpp`.

* `Real` is an arbitrary linearly ordered field `K` (exact arithmetic); every definition is
  computable and can be evaluated at `K = ℚ`.
* C++ `int` indices are `Int`; arrays are total functions of their indices.
* A Kokkos `par_for` over an inclusive index box is a left fold over the cells of the box in
  lexicographic order, the loop body being a state transformer.
* A `throw` is the `Except.error` branch of the status carried by the outcome, next to the
  state reached when it was raised.
-/

namespace Kharma

/-! ## Data model -/

/-- Modelled from the spec: the enumeration `prims` of primitive components (declared in
`decs.hpp`, which is not among the sources): density, internal energy, three velocity and
three magnetic field components. The same indices address the conserved image. -/
inductive prims
  | rho | u | u1 | u2 | u3 | B1 | B2 | B3
  deriving DecidableEq, Repr

/-- Stagger locations named by the sources (`Loci::center`, `Loci::corner`). -/
inductive Loci
  | center | corner
  deriving DecidableEq, Repr

/-- Index domains named by the sources (`IndexDomain::interior`, `IndexDomain::entire`). -/
inductive IndexDomain
  | interior | entire
  deriving DecidableEq, Repr

/-- Task status returned by every task; the sources only ever return `complete`. -/
inductive TaskStatus
  | fail | complete | incomplete
  deriving DecidableEq, Repr

/-- C++ exceptions raised by the sources. -/
inductive Exception
  | invalid_argument (what : String)
  deriving DecidableEq, Repr

/-- Internal representation of the field initialization preference (`enum BSeedType`). -/
inductive BSeedType
  | sane | ryan | r3s3 | gaussian
  deriving DecidableEq, Repr

/-- A grid array `GridVars`, addressed as `P(p, k, j, i)`. -/
abbrev GridVars (K : Type) := prims → Int → Int → Int → K

/-- A container: field arrays looked up by name (`rc->Get(name).data`). -/
abbrev Container (K : Type) := String → GridVars K

/-- The containers of a mesh block, looked up by name (`pmb->real_containers.Get(name)`). -/
abbrev ContainerCollection (K : Type) := String → Container K

/-- The 2D corner potential `ParArrayND<Real> A`, addressed as `A(j, i)`. -/
abbrev PotentialArray (K : Type) := Int → Int → K

/-- The bounds object `pmb->cellbounds`: first and last index in each direction and the number
of cells, per index domain. -/
structure IndexShape where
  is : IndexDomain → Int
  ie : IndexDomain → Int
  js : IndexDomain → Int
  je : IndexDomain → Int
  ks : IndexDomain → Int
  ke : IndexDomain → Int
  ncellsi : IndexDomain → Int
  ncellsj : IndexDomain → Int

/-- The geometry collaborator `GRCoordinates`: `coord_embed k j i loc` is the array `Xembed`
it fills, `dx1v`, `dx2v` the cell widths and `gdet loc j i` the metric determinant. -/
structure GRCoordinates (K : Type) where
  coord_embed : Int → Int → Int → Loci → Nat → K
  dx1v : Int → K
  dx2v : Int → K
  gdet : Loci → Int → Int → K

/-- The part of a `MeshBlock` the sources read: bounds, geometry, the `gamma` parameter of the
`GRMHD` package and the time step `pmy_mesh->dt`. -/
structure MeshBlock (K : Type) where
  cellbounds : IndexShape
  coords : GRCoordinates K
  gamma : K
  dt : K

/-- The run-time parameters `ParameterInput`, looked up by block and name. -/
structure ParameterInput (K : Type) where
  reals : String → String → Option K
  strings : String → String → Option String

/-- Constants of `decs.hpp` (not among the sources), taken as parameters. -/
structure Decs (K : Type) where
  NGHOST : Int
  TINY_NUMBER : K

/-- The functions of the C math library used by the seeding formulas, taken as parameters so
that the embedding stays computable; `pow(x, 3)` is `x ^ 3`, `fabs` is the absolute value. -/
structure CMath (K : Type) where
  sin : K → K
  exp : K → K
  log : K → K
  sqrt : K → K
  M_PI : K

/-- The equation of state object: `eos->p(rho, u)`. -/
structure EOS (K : Type) where
  p : K → K → K

/-- The collaborators of `phys.hpp` (not among the sources), taken as parameters; `FV` is the
type `FourVectors`. `prim_to_flux G P D eos k j i loc dir` is the conserved image it stores in
the entries `(·, k, j, i)` of its output array. -/
structure Phys (K FV : Type) where
  CreateEOS : K → EOS K
  get_state : GRCoordinates K → GridVars K → Int → Int → Int → Loci → FV
  prim_to_flux : GRCoordinates K → GridVars K → FV → EOS K → Int → Int → Int → Loci → Nat →
    prims → K
  bsq_calc : FV → K

/-- The integrator: the blend weights `integrator->beta`. -/
structure Integrator (K : Type) where
  beta : List K

variable {K : Type}

/-- Value of `pin->GetOrAddReal(block, name, dflt)`. -/
def ParameterInput.GetOrAddReal (pin : ParameterInput K) (block name : String) (dflt : K) : K :=
  (pin.reals block name).getD dflt

/-- Value of `pin->GetOrAddString(block, name, dflt)`. -/
def ParameterInput.GetOrAddString (pin : ParameterInput K) (block name dflt : String) :
    String :=
  (pin.strings block name).getD dflt

/-- The assignment `V(p, k, j, i) = x`. -/
def GridVars.set (V : GridVars K) (p : prims) (k j i : Int) (x : K) : GridVars K :=
  fun p' k' j' i' => if p' = p ∧ k' = k ∧ j' = j ∧ i' = i then x else V p' k' j' i'

/-- The assignment `A(j, i) = x`. -/
def PotentialArray.set (A : PotentialArray K) (j i : Int) (x : K) : PotentialArray K :=
  fun j' i' => if j' = j ∧ i' = i then x else A j' i'

/-- Storing a conserved image in the entries `(·, k, j, i)` of an array. -/
def GridVars.setCell (V : GridVars K) (k j i : Int) (x : prims → K) : GridVars K :=
  fun p' k' j' i' => if k' = k ∧ j' = j ∧ i' = i then x p' else V p' k' j' i'

/-- The indices `lo, lo + 1, ..., hi` of an inclusive loop range. -/
def intRange (lo hi : Int) : List Int :=
  (List.range (hi + 1 - lo).toNat).map (fun (n : Nat) => lo + (n : Int))

/-- The cells of the inclusive box `jl..ju × il..iu`, outer index first. -/
def cells2D (jl ju il iu : Int) : List (Int × Int) :=
  List.product (intRange jl ju) (intRange il iu)

/-- The cells of the inclusive box `kl..ku × jl..ju × il..iu`, outer index first. -/
def cells3D (kl ku jl ju il iu : Int) : List (Int × Int × Int) :=
  List.product (intRange kl ku) (List.product (intRange jl ju) (intRange il iu))

/-- The loop `pmb->par_for(name, jl, ju, il, iu, KOKKOS_LAMBDA_2D {...})`, bounds inclusive. -/
def par_for_2D {σ : Type} (jl ju il iu : Int) (body : Int → Int → σ → σ) (s : σ) : σ :=
  (cells2D jl ju il iu).foldl (fun s c => body c.1 c.2 s) s

/-- The loop `pmb->par_for(name, kl, ku, jl, ju, il, iu, KOKKOS_LAMBDA_3D {...})`, bounds
inclusive. -/
def par_for_3D {σ : Type} (kl ku jl ju il iu : Int) (body : Int → Int → Int → σ → σ) (s : σ) :
    σ :=
  (cells3D kl ku jl ju il iu).foldl (fun s c => body c.1 c.2.1 c.2.2 s) s

/-! ## `SeedBField` -/

section Seed

variable [LinearOrderedField K]

/-- The translation of the configured string to the enum (`seed_B.cpp`, lines 30-43):
`none` returns early (no flag), an unknown string throws. -/
def b_field_flag (b_field_type : String) : Except Exception (Option BSeedType) :=
  if b_field_type = "none" then .ok none
  else if b_field_type = "sane" then .ok (some BSeedType.sane)
  else if b_field_type = "ryan" then .ok (some BSeedType.ryan)
  else if b_field_type = "r3s3" then .ok (some BSeedType.r3s3)
  else if b_field_type = "gaussian" then .ok (some BSeedType.gaussian)
  else .error (Exception.invalid_argument
    ("Magnetic field seed type not supported: " ++ b_field_type))

/-- The average of the density at the four cell centers adjacent to corner `(j, i)`. -/
def rho_av (d : Decs K) (P : GridVars K) (j i : Int) : K :=
  0.25 * (P prims.rho d.NGHOST j i + P prims.rho d.NGHOST j (i - 1) +
          P prims.rho d.NGHOST (j - 1) i + P prims.rho d.NGHOST (j - 1) (i - 1))

/-- The scalar `q` of the `switch (b_field_flag)` in the kernel `B_field_A`. The divisions
are those of the field `K`, where a quotient by zero is `0`: they render the machine divisions
for `rin ≠ 0` (and non-zero `sqrt(2*log(2))`, `sqrt(2*M_PI)`) only; `seed_q_checked` makes the
divisions explicit. -/
def seed_q (m : CMath K) (flag : BSeedType) (rin min_rho_q r th rho_av : K) : K :=
  match flag with
  | BSeedType.sane => rho_av - min_rho_q
  | BSeedType.ryan => (m.sin th) ^ 3 * (r / rin) ^ 3 * m.exp (-r / 400) * rho_av - min_rho_q
  | BSeedType.r3s3 => (r / rin) ^ 3 * rho_av - min_rho_q
  | BSeedType.gaussian =>
      let x := (r / rin) * m.sin th
      let sigma := 2 / m.sqrt (2 * m.log 2)
      let u := x / |sigma|
      (1 / (m.sqrt (2 * m.M_PI) * |sigma|)) * m.exp (-u * u / 2)

/-- The value of `q` at corner `(j, i)`, with `r = Xembed[1]`, `th = Xembed[2]`. -/
def corner_q (d : Decs K) (m : CMath K) (G : GRCoordinates K) (P : GridVars K)
    (flag : BSeedType) (rin min_rho_q : K) (j i : Int) : K :=
  let Xembed := G.coord_embed 0 j i Loci.center
  let r := Xembed 1
  let th := Xembed 2
  seed_q m flag rin min_rho_q r th (rho_av d P j i)

/-- The kernel `B_field_A`: the corner potential, written on `js..je+1 × is..ie+1` into a
fresh (zero) array. -/
def B_field_A (d : Decs K) (m : CMath K) (G : GRCoordinates K) (P : GridVars K)
    (flag : BSeedType) (rin min_rho_q : K) (js je is ie : Int) : PotentialArray K :=
  par_for_2D js (je + 1) is (ie + 1)
    (fun j i A => A.set j i (max (corner_q d m G P flag rin min_rho_q j i) 0))
    (fun _ _ => 0)

/-- The kernel `B_field_B`: a flux-ct step from the corner potentials. The divisions are those
of the field `K`, where a quotient by zero is `0`: they render the machine divisions at the
cells with non-zero `dx1v(i)`, `dx2v(j)` and `gdet(j, i)` only. -/
def B_field_B (G : GRCoordinates K) (A : PotentialArray K) (ks ke js je is ie : Int)
    (P : GridVars K) : GridVars K :=
  par_for_3D ks ke js je is ie
    (fun k j i P =>
      let P1 := P.set prims.B1 k j i
        (-(A j i - A (j + 1) i + A j (i + 1) - A (j + 1) (i + 1)) /
          (2 * G.dx2v j * G.gdet Loci.center j i))
      let P2 := P1.set prims.B2 k j i
        ((A j i + A (j + 1) i - A j (i + 1) - A (j + 1) (i + 1)) /
          (2 * G.dx1v i * G.gdet Loci.center j i))
      P2.set prims.B3 k j i 0)
    P

/-- What a call of `SeedBField` leaves behind: the status returned or the exception thrown,
the container `rc`, and the potential array if it was created. -/
structure SeedOutcome (K : Type) where
  status : Except Exception TaskStatus
  rc : Container K
  A : Option (PotentialArray K)

/-- The task `SeedBField(rc, pin)`. -/
def SeedBField (d : Decs K) (m : CMath K) (pmb : MeshBlock K) (rc : Container K)
    (pin : ParameterInput K) : SeedOutcome K :=
  let domain := IndexDomain.interior
  let is := pmb.cellbounds.is domain
  let ie := pmb.cellbounds.ie domain
  let js := pmb.cellbounds.js domain
  let je := pmb.cellbounds.je domain
  let ks := pmb.cellbounds.ks domain
  let ke := pmb.cellbounds.ke domain
  let G := pmb.coords
  let P := rc "c.c.bulk.prims"
  let rin := pin.GetOrAddReal "torus" "rin" 6.0
  let min_rho_q := pin.GetOrAddReal "b_field" "min_rho_q" 0.2
  let b_field_type := pin.GetOrAddString "b_field" "type" "none"
  match b_field_flag b_field_type with
  | .error e => { status := .error e, rc := rc, A := none }
  | .ok none => { status := .ok TaskStatus.complete, rc := rc, A := none }
  | .ok (some flag) =>
      let A := B_field_A d m G P flag rin min_rho_q js je is ie
      let P' := B_field_B G A ks ke js je is ie P
      { status := .ok TaskStatus.complete
        rc := Function.update rc "c.c.bulk.prims" P'
        A := some A }

end Seed

/-! ## `NormalizeBField` and `GetLocalBetaMin` -/

section Normalize

variable [LinearOrderedField K] {FV : Type}

/-- The body of the kernel `B_field_normalize` at cell `(k, j, i)`, on the pair of arrays
`(P, U)`: divide the three field components of the cell by `factor`, then store the
conserved image of the cell. -/
def B_field_normalize_body (ph : Phys K FV) (G : GRCoordinates K) (eos : EOS K) (factor : K)
    (k j i : Int) (PU : GridVars K × GridVars K) : GridVars K × GridVars K :=
  let P := PU.1
  let U := PU.2
  let P1 := P.set prims.B1 k j i (P prims.B1 k j i / factor)
  let P2 := P1.set prims.B2 k j i (P1 prims.B2 k j i / factor)
  let P3 := P2.set prims.B3 k j i (P2 prims.B3 k j i / factor)
  let Dtmp := ph.get_state G P3 k j i Loci.center
  (P3, U.setCell k j i (ph.prim_to_flux G P3 Dtmp eos k j i Loci.center 0))

/-- The kernel `B_field_normalize` over the interior cells. -/
def B_field_normalize (ph : Phys K FV) (G : GRCoordinates K) (eos : EOS K) (factor : K)
    (ks ke js je is ie : Int) (PU : GridVars K × GridVars K) : GridVars K × GridVars K :=
  par_for_3D ks ke js je is ie (B_field_normalize_body ph G eos factor) PU

/-- The task `NormalizeBField(rc, factor)`: the status returned and the container after the
call. -/
def NormalizeBField (ph : Phys K FV) (pmb : MeshBlock K) (rc : Container K) (factor : K) :
    TaskStatus × Container K :=
  let domain := IndexDomain.interior
  let is := pmb.cellbounds.is domain
  let ie := pmb.cellbounds.ie domain
  let js := pmb.cellbounds.js domain
  let je := pmb.cellbounds.je domain
  let ks := pmb.cellbounds.ks domain
  let ke := pmb.cellbounds.ke domain
  let P := rc "c.c.bulk.prims"
  let U := rc "c.c.bulk.cons"
  let G := pmb.coords
  let gamma := pmb.gamma
  let eos := ph.CreateEOS gamma
  let PU := B_field_normalize ph G eos factor ks ke js je is ie (P, U)
  (TaskStatus.complete,
    Function.update (Function.update rc "c.c.bulk.prims" PU.1) "c.c.bulk.cons" PU.2)

/-- The value `beta_ij` computed for cell `(k, j, i)` by the kernel `B_field_betamin`. -/
def beta_ij (d : Decs K) (ph : Phys K FV) (G : GRCoordinates K) (eos : EOS K)
    (P : GridVars K) (k j i : Int) : K :=
  let Dtmp := ph.get_state G P k j i Loci.center
  let bsq_ij := ph.bsq_calc Dtmp
  let rho := P prims.rho k j i
  let u := P prims.u k j i
  (eos.p rho u) / (0.5 * (bsq_ij + d.TINY_NUMBER))

/-- The cells of `Kokkos::MDRangePolicy<Kokkos::Rank<3>>({k0, j0, i0}, {k1, j1, i1})`: the
upper bounds are exclusive. -/
def MDRangePolicy3 (k0 j0 i0 k1 j1 i1 : Int) : List (Int × Int × Int) :=
  cells3D k0 (k1 - 1) j0 (j1 - 1) i0 (i1 - 1)

/-- The reduction `Kokkos::parallel_reduce(name, policy, body, Kokkos::Min<Real>)` with the
body `if (value < local_result) local_result = value;`, started from the identity of the
reducer and run over the cells in the order given. -/
def parallel_reduce_min (identity : K) (cells : List (Int × Int × Int))
    (value : Int → Int → Int → K) : K :=
  cells.foldl
    (fun local_result c =>
      if value c.1 c.2.1 c.2.2 < local_result then value c.1 c.2.1 c.2.2 else local_result)
    identity

/-- The function `GetLocalBetaMin(rc)`; `identity` is `Kokkos::reduction_identity<Real>::min()`,
the value the `Min` reducer starts from (the largest representable `Real`). -/
def GetLocalBetaMin (d : Decs K) (ph : Phys K FV) (identity : K) (pmb : MeshBlock K)
    (rc : Container K) : K :=
  let domain := IndexDomain.interior
  let is := pmb.cellbounds.is domain
  let ie := pmb.cellbounds.ie domain
  let js := pmb.cellbounds.js domain
  let je := pmb.cellbounds.je domain
  let ks := pmb.cellbounds.ks domain
  let ke := pmb.cellbounds.ke domain
  let G := pmb.coords
  let P := rc "c.c.bulk.prims"
  let gamma := pmb.gamma
  let eos := ph.CreateEOS gamma
  parallel_reduce_min identity (MDRangePolicy3 ks js is (ke + 1) (je + 1) (ie + 1))
    (fun k j i => beta_ij d ph G eos P k j i)

end Normalize

/-! ## `UpdateContainer` -/

section Stage

variable [LinearOrderedField K]

/-- Modelled from the spec: `parthenon::Update::AverageContainers(c1, c2, wgt1)` (the
StageBlender; the Parthenon library is not among the sources) overwrites every field/cell
entry of `c1` with `wgt1 * c1 + (1 - wgt1) * c2`. The result is the new content of `c1`. -/
def parthenon.Update.AverageContainers (c1 c2 : Container K) (wgt1 : K) : Container K :=
  fun v p k j i => wgt1 * c1 v p k j i + (1 - wgt1) * c2 v p k j i

/-- Modelled from the spec: `parthenon::Update::UpdateContainer(in, dudt, dt, out)` (the
StageIntegrator; the Parthenon library is not among the sources) overwrites every entry of
`out` with `in + dt * dudt`. The result is the new content of `out`. -/
def parthenon.Update.UpdateContainer (cin dudt : Container K) (dt : K) : Container K :=
  fun v p k j i => cin v p k j i + dt * dudt v p k j i

/-- Element `v[n]` of a `std::vector`; `none` outside `0 .. size - 1` (undefined in C++). -/
def vector_at {α : Type} (v : List α) (n : Int) : Option α :=
  if 0 ≤ n then v.get? n.toNat else none

/-- Line 15 of `containers.cpp`, `AverageContainers(cin, base, beta)`, on the containers of
the block: the container named `name_in` is overwritten in place. -/
def blend_stage (real_containers : ContainerCollection K) (name_in : String) (beta : K) :
    ContainerCollection K :=
  let base := real_containers "base"
  let cin := real_containers name_in
  Function.update real_containers name_in (parthenon.Update.AverageContainers cin base beta)

/-- Line 16 of `containers.cpp`, `UpdateContainer(cin, dudt, beta*dt, cout)`, on the
containers of the block: the container named `name_out` is overwritten. -/
def update_stage (real_containers : ContainerCollection K) (name_in name_out : String)
    (step : K) : ContainerCollection K :=
  let cin := real_containers name_in
  let dudt := real_containers "dUdt"
  Function.update real_containers name_out (parthenon.Update.UpdateContainer cin dudt step)

/-- The containers of the block after line 15 and after line 16 of
`UpdateContainer(pmb, stage, stage_name, integrator)`: `Get()` is the container named `base`.
Every container is an entry of the collection, so two names that coincide denote one
container; both library calls act entry by entry, which makes the in-place update and the
update of the collection agree also then. `none` when a vector is read out of range. -/
def UpdateContainer_states (pmb : MeshBlock K) (real_containers : ContainerCollection K)
    (stage : Int) (stage_name : List String) (integrator : Integrator K) :
    Option (ContainerCollection K × ContainerCollection K) :=
  match vector_at integrator.beta (stage - 1), vector_at stage_name (stage - 1),
    vector_at stage_name stage with
  | some beta, some name_in, some name_out =>
      let rc1 := blend_stage real_containers name_in beta
      let rc2 := update_stage rc1 name_in name_out (beta * pmb.dt)
      some (rc1, rc2)
  | _, _, _ => none

/-- The task `UpdateContainer(pmb, stage, stage_name, integrator)`: the status returned and
the containers of the block after the call. -/
def UpdateContainer (pmb : MeshBlock K) (real_containers : ContainerCollection K) (stage : Int)
    (stage_name : List String) (integrator : Integrator K) :
    Option (TaskStatus × ContainerCollection K) :=
  (UpdateContainer_states pmb real_containers stage stage_name integrator).map
    (fun st => (TaskStatus.complete, st.2))

end Stage

/-! ## Reference quantities of the specification and sample inputs -/

section Reference

variable [LinearOrderedField K]

/-- The flux-CT divergence at corner `(j, i)` of the face fluxes `F1`, `F2`, for uniform cell
widths `dx1`, `dx2`, as the specification states it. -/
def flux_ct_divergence (F1 F2 : Int → Int → K) (dx1 dx2 : K) (j i : Int) : K :=
  (F1 j i + F1 (j - 1) i - F1 j (i - 1) - F1 (j - 1) (i - 1)) / (2 * dx1) +
  (F2 j i + F2 j (i - 1) - F2 (j - 1) i - F2 (j - 1) (i - 1)) / (2 * dx2)

/-- The reference discrete curl, first component: the negative of the potential difference
across the j-direction over twice the j-width times the determinant. -/
def reference_curl_B1 (G : GRCoordinates K) (A : PotentialArray K) (j i : Int) : K :=
  -((A j i - A (j + 1) i) + (A j (i + 1) - A (j + 1) (i + 1))) /
    (2 * G.dx2v j * G.gdet Loci.center j i)

/-- The reference discrete curl, second component: the potential difference across the
i-direction with the same normalisation. -/
def reference_curl_B2 (G : GRCoordinates K) (A : PotentialArray K) (j i : Int) : K :=
  ((A j i - A j (i + 1)) + (A (j + 1) i - A (j + 1) (i + 1))) /
    (2 * G.dx1v i * G.gdet Loci.center j i)

/-- The collaborators `get_state` and `prim_to_flux` read the primitives of the cell they
are called for, and of no other cell. -/
def Phys.CellLocal {FV : Type} (ph : Phys K FV) : Prop :=
  (∀ (G : GRCoordinates K) (P P' : GridVars K) (k j i : Int) (loc : Loci),
    (∀ p, P p k j i = P' p k j i) → ph.get_state G P k j i loc = ph.get_state G P' k j i loc) ∧
  (∀ (G : GRCoordinates K) (P P' : GridVars K) (D : FV) (eos : EOS K) (k j i : Int)
    (loc : Loci) (dir : Nat),
    (∀ p, P p k j i = P' p k j i) →
      ph.prim_to_flux G P D eos k j i loc dir = ph.prim_to_flux G P' D eos k j i loc dir)

end Reference

/-- A sample geometry over `ℚ`: uniform widths `1/2` and `1/4`, a determinant that varies
from cell to cell and never vanishes. -/
def sampleG : GRCoordinates ℚ where
  coord_embed := fun _ j i _ n => if n = 1 then 6 + (i : ℚ) else if n = 2 then 1 + (j : ℚ) else 0
  dx1v := fun _ => 1 / 2
  dx2v := fun _ => 1 / 4
  gdet := fun _ j i => 1 + (j : ℚ) ^ 2 + (i : ℚ) ^ 2

/-- A sample corner potential over `ℚ`. -/
def sampleA : PotentialArray ℚ := fun j i => (j : ℚ) ^ 2 * (i : ℚ) + 3 * (i : ℚ)

/-- A sample primitive array over `ℚ`. -/
def sampleP : GridVars ℚ := fun p k j i =>
  if p = prims.rho then 1 + (j : ℚ) ^ 2 else (k : ℚ) + 2 * (j : ℚ) - (i : ℚ)

/-- A sample block over `ℚ`: two ghost layers around an interior of `4 x 3 x 2` cells. -/
def sampleBlock : MeshBlock ℚ where
  cellbounds :=
    { is := fun dom => if dom = IndexDomain.interior then 2 else 0
      ie := fun dom => if dom = IndexDomain.interior then 5 else 7
      js := fun dom => if dom = IndexDomain.interior then 2 else 0
      je := fun dom => if dom = IndexDomain.interior then 4 else 6
      ks := fun dom => if dom = IndexDomain.interior then 2 else 0
      ke := fun dom => if dom = IndexDomain.interior then 3 else 5
      ncellsi := fun dom => if dom = IndexDomain.interior then 4 else 8
      ncellsj := fun dom => if dom = IndexDomain.interior then 3 else 7 }
  coords := sampleG
  gamma := 4 / 3
  dt := 1 / 8

/-- Sample constants: two ghost layers, a small positive floor. -/
def sampleDecs : Decs ℚ where
  NGHOST := 2
  TINY_NUMBER := 1 / 1000000

/-- Rational stand-ins for the functions of the C math library (low-order truncations),
used only to evaluate the embedding on sample inputs. -/
def sampleMath : CMath ℚ where
  sin := fun x => x - x ^ 3 / 6
  exp := fun x => 1 + x + x ^ 2 / 2
  log := fun x => x - 1
  sqrt := fun x => (1 + x) / 2
  M_PI := 22 / 7

/-- A sample container over `ℚ`: every field array is `sampleP`. -/
def sampleRc : Container ℚ := fun _ => sampleP

/-- Sample run-time parameters: only the seed type `b_field/type` is configured. -/
def samplePin (b_field_type : String) : ParameterInput ℚ where
  reals := fun _ _ => none
  strings := fun block name =>
    if block = "b_field" ∧ name = "type" then some b_field_type else none

/-- A sample collection of containers over `ℚ`; the containers differ from one another. -/
def sampleCollection : ContainerCollection ℚ := fun name _ p k j i =>
  if name = "base" then 1 + (k : ℚ)
  else if name = "dUdt" then (j : ℚ) - (i : ℚ)
  else if name = "stage1" then (if p = prims.rho then 2 else 3 * (i : ℚ))
  else 5

/-- Sample stage names of a three-stage scheme. -/
def sampleStageNames : List String := ["base", "stage1", "stage2", "stage3"]

/-- Sample blend weights of a three-stage scheme. -/
def sampleIntegrator : Integrator ℚ where
  beta := [1, 1 / 4, 2 / 3]

/-- The sample integrator with blend weight `1` in every stage. -/
def sampleIntegratorOne : Integrator ℚ where
  beta := [1, 1, 1]

/-- The sample integrator with blend weight `0` in every stage. -/
def sampleIntegratorZero : Integrator ℚ where
  beta := [0, 0, 0]

/-- Sample collaborators over `ℚ`, with `FourVectors` a triple: an ideal-gas pressure, a state
made of the three field components of the cell, and a flux image built from the cell. -/
def samplePhys : Phys ℚ (ℚ × ℚ × ℚ) where
  CreateEOS := fun gamma => { p := fun _ u => (gamma - 1) * u }
  get_state := fun _ P k j i _ => (P prims.B1 k j i, P prims.B2 k j i, P prims.B3 k j i)
  prim_to_flux := fun G P D _ k j i loc _ p => G.gdet loc j i * (P p k j i + D.1 * D.2.1)
  bsq_calc := fun D => D.1 ^ 2 + D.2.1 ^ 2 + D.2.2 ^ 2

/-! ## Parallel executions of the reduction -/

/-- A way Kokkos may execute one `parallel_reduce`: a `group` of cells is visited in the order
given by one worker, two partial reductions are combined by `join`. -/
inductive Reduction
  | group (cells : List (Int × Int × Int))
  | join (dest src : Reduction)
  deriving Repr

/-- The cells an execution visits. -/
def Reduction.cells : Reduction → List (Int × Int × Int)
  | Reduction.group c => c
  | Reduction.join dest src => dest.cells ++ src.cells

section ReductionRun

variable [LinearOrderedField K]

/-- The result of an execution of the `Min` reduction: every group is reduced by the loop
body from the identity of the reducer (`init`), and two partial results are combined by the
`join` of `Kokkos::Min<Real>`, `if (src < dest) dest = src;`. -/
def Reduction.run (identity : K) (value : Int → Int → Int → K) : Reduction → K
  | Reduction.group c => parallel_reduce_min identity c value
  | Reduction.join dest src =>
      if src.run identity value < dest.run identity value then src.run identity value
      else dest.run identity value

/-- The function `GetLocalBetaMin(rc)` with its `parallel_reduce` executed as `t`. -/
def GetLocalBetaMin_run {FV : Type} (d : Decs K) (ph : Phys K FV) (identity : K)
    (pmb : MeshBlock K) (rc : Container K) (t : Reduction) : K :=
  let G := pmb.coords
  let P := rc "c.c.bulk.prims"
  let gamma := pmb.gamma
  let eos := ph.CreateEOS gamma
  t.run identity (fun k j i => beta_ij d ph G eos P k j i)

end ReductionRun

/-- A sample execution on the interior of the sample block: three groups, the first visited
backwards, the second empty, combined in two joins. -/
def sampleReduction : Reduction :=
  Reduction.join
    (Reduction.join (Reduction.group ((MDRangePolicy3 2 2 2 4 5 6).drop 7).reverse)
      (Reduction.group []))
    (Reduction.group ((MDRangePolicy3 2 2 2 4 5 6).take 7))

/-- A sample container over `ℚ` with density `1` in every cell, ghost cells included. -/
def uniformRc : Container ℚ := fun _ p k j i =>
  if p = prims.rho then 1 else (k : ℚ) - (j : ℚ) * (i : ℚ)

/-- A sample container over `ℚ` with density `0` in every cell. -/
def vacuumRc : Container ℚ := fun _ p k j i =>
  if p = prims.rho then 0 else (k : ℚ) + (j : ℚ) * (i : ℚ)

/-- A sample container over `ℚ` whose density varies with `k`. -/
def layeredRc : Container ℚ := fun _ p k j i =>
  if p = prims.rho then 1 + (k : ℚ) + (j : ℚ) ^ 2 else (i : ℚ)

/-- Another sample container over `ℚ`: its density equals that of `layeredRc` in the layer
`k = 2` and differs from it elsewhere. -/
def layeredRc2 : Container ℚ := fun _ p k j i =>
  if p = prims.rho then ((k : ℚ) - 1) * (3 + (j : ℚ) ^ 2) else 7 * (i : ℚ)

/-! ## The C math library over the real numbers -/

/-- The functions of the C math library in exact real arithmetic. -/
noncomputable def realMath : CMath ℝ where
  sin := Real.sin
  exp := Real.exp
  log := Real.log
  sqrt := Real.sqrt
  M_PI := Real.pi

/-- A geometry over `ℝ` whose cells lie in the equatorial plane: `r = 12 i`, `th = π/2`,
unit cell widths and unit determinant. -/
noncomputable def equatorG : GRCoordinates ℝ where
  coord_embed := fun _ _ i _ n =>
    if n = 1 then 12 * (i : ℝ) else if n = 2 then Real.pi / 2 else 0
  dx1v := fun _ => 1
  dx2v := fun _ => 1
  gdet := fun _ _ _ => 1

/-- A block over `ℝ` with the bounds of the sample block and the equatorial geometry. -/
noncomputable def equatorBlock : MeshBlock ℝ where
  cellbounds := sampleBlock.cellbounds
  coords := equatorG
  gamma := 4 / 3
  dt := 1 / 8

/-- Constants over `ℝ`: two ghost layers, a small positive floor. -/
noncomputable def realDecs : Decs ℝ where
  NGHOST := 2
  TINY_NUMBER := 1 / 1000000

/-- A container over `ℝ` with density `0`, and every other primitive `0`, in every cell. -/
noncomputable def vacuumReal : Container ℝ := fun _ _ _ _ _ => 0

/-- Run-time parameters over `ℝ`: only the seed type `b_field/type` is configured, so that
`rin` and `min_rho_q` take their defaults `6.0` and `0.2`. -/
def realPin (b_field_type : String) : ParameterInput ℝ where
  reals := fun _ _ => none
  strings := fun block name =>
    if block = "b_field" ∧ name = "type" then some b_field_type else none

/-- Sample blend weights whose first stage is a proper blend. -/
def sampleIntegratorHalf : Integrator ℚ where
  beta := [1 / 2, 1 / 4, 2 / 3]

/-! ## Array accesses of `SeedBField` -/

/-- Modelled from the spec: the first index of a direction with `nx` cells in the layout of a
mesh block (`IndexShape` is a type of the Parthenon library, which is not among the sources),
in the words of the property on index safety: a direction with more than one cell carries
`NGHOST` ghost layers on each side of the interior, a direction with a single cell carries
none. The arrays start at index `0`. -/
def axisFirst (NGHOST nx : Int) (dom : IndexDomain) : Int :=
  if dom = IndexDomain.interior ∧ 1 < nx then NGHOST else 0

/-- Modelled from the spec: the last index of a direction with `nx` cells, in the same layout
(see `axisFirst`). -/
def axisLast (NGHOST nx : Int) (dom : IndexDomain) : Int :=
  if 1 < nx then (if dom = IndexDomain.interior then NGHOST + nx - 1 else nx + 2 * NGHOST - 1)
  else 0

/-- Modelled from the spec: the number of cells of a direction with `nx` cells, in the same
layout (see `axisFirst`). -/
def axisCells (NGHOST nx : Int) (dom : IndexDomain) : Int :=
  if 1 < nx then (if dom = IndexDomain.interior then nx else nx + 2 * NGHOST) else 1

/-- Modelled from the spec: the bounds of a mesh block with `nx1 x nx2 x nx3` interior cells,
in the layout of `axisFirst`. -/
def blockShape (NGHOST nx1 nx2 nx3 : Int) : IndexShape where
  is := axisFirst NGHOST nx1
  ie := axisLast NGHOST nx1
  js := axisFirst NGHOST nx2
  je := axisLast NGHOST nx2
  ks := axisFirst NGHOST nx3
  ke := axisLast NGHOST nx3
  ncellsi := axisCells NGHOST nx1
  ncellsj := axisCells NGHOST nx2

/-- The entries `(k, j, i)` of the density `P(prims::rho, k, j, i)` read by the kernel
`B_field_A` at corner `(j, i)` (`seed_B.cpp`, lines 55-56). -/
def B_field_A_reads (NGHOST j i : Int) : List (Int × Int × Int) :=
  [(NGHOST, j, i), (NGHOST, j, i - 1), (NGHOST, j - 1, i), (NGHOST, j - 1, i - 1)]

/-- The entries `(j, i)` of the potential `A` read by the kernel `B_field_B` at a cell
`(k, j, i)` (`seed_B.cpp`, lines 91-94). -/
def B_field_B_reads (j i : Int) : List (Int × Int) :=
  [(j, i), (j + 1, i), (j, i + 1), (j + 1, i + 1)]

/-- The index `(k, j, i)` lies inside the grid arrays of the block, which span its entire
domain. -/
def IndexShape.inside (cb : IndexShape) (c : Int × Int × Int) : Prop :=
  (cb.ks IndexDomain.entire ≤ c.1 ∧ c.1 ≤ cb.ke IndexDomain.entire) ∧
  (cb.js IndexDomain.entire ≤ c.2.1 ∧ c.2.1 ≤ cb.je IndexDomain.entire) ∧
  (cb.is IndexDomain.entire ≤ c.2.2 ∧ c.2.2 ≤ cb.ie IndexDomain.entire)

/-- The index `(j, i)` lies inside the potential array `A("A", n2, n1)`. -/
def IndexShape.insidePotential (cb : IndexShape) (c : Int × Int) : Prop :=
  (0 ≤ c.1 ∧ c.1 < cb.ncellsj IndexDomain.entire) ∧
  (0 ≤ c.2 ∧ c.2 < cb.ncellsi IndexDomain.entire)

/-- The entry `(j, i)` of the potential is one the kernel `B_field_A` writes: `j` in
`js..je+1`, `i` in `is..ie+1`. -/
def IndexShape.cornerWritten (cb : IndexShape) (c : Int × Int) : Prop :=
  (cb.js IndexDomain.interior ≤ c.1 ∧ c.1 ≤ cb.je IndexDomain.interior + 1) ∧
  (cb.is IndexDomain.interior ≤ c.2 ∧ c.2 ≤ cb.ie IndexDomain.interior + 1)

instance (cb : IndexShape) (c : Int × Int × Int) : Decidable (cb.inside c) := by
  unfold IndexShape.inside
  infer_instance

instance (cb : IndexShape) (c : Int × Int) : Decidable (cb.insidePotential c) := by
  unfold IndexShape.insidePotential
  infer_instance

instance (cb : IndexShape) (c : Int × Int) : Decidable (cb.cornerWritten c) := by
  unfold IndexShape.cornerWritten
  infer_instance

/-! ## Machine division made explicit -/

section Checked

variable [LinearOrderedField K]

/-- The quotient `a / b` of a machine division when the divisor is not zero; a division by
zero yields `±inf` or `NaN`, no real value: `none`. -/
def checked_div (a b : K) : Option K :=
  if b = 0 then none else some (a / b)

/-- The scalar `q` of the `switch (b_field_flag)` in the kernel `B_field_A` (`seed_B.cpp`,
lines 59-81), with every division by a quantity that is not a literal made explicit: `none`
when the code divides by zero. -/
def seed_q_checked (m : CMath K) (flag : BSeedType) (rin min_rho_q r th rho_av : K) :
    Option K :=
  match flag with
  | BSeedType.sane => some (rho_av - min_rho_q)
  | BSeedType.ryan =>
      (checked_div r rin).bind fun x =>
        some ((m.sin th) ^ 3 * x ^ 3 * m.exp (-r / 400) * rho_av - min_rho_q)
  | BSeedType.r3s3 =>
      (checked_div r rin).bind fun x => some (x ^ 3 * rho_av - min_rho_q)
  | BSeedType.gaussian =>
      (checked_div r rin).bind fun x0 =>
        let x := x0 * m.sin th
        (checked_div 2 (m.sqrt (2 * m.log 2))).bind fun sigma =>
          (checked_div x |sigma|).bind fun u =>
            (checked_div 1 (m.sqrt (2 * m.M_PI) * |sigma|)).bind fun c =>
              some (c * m.exp (-u * u / 2))

/-- The value of `q` at corner `(j, i)`, with `r = Xembed[1]`, `th = Xembed[2]`; `none` when
the code divides by zero. -/
def corner_q_checked (d : Decs K) (m : CMath K) (G : GRCoordinates K) (P : GridVars K)
    (flag : BSeedType) (rin min_rho_q : K) (j i : Int) : Option K :=
  let Xembed := G.coord_embed 0 j i Loci.center
  let r := Xembed 1
  let th := Xembed 2
  seed_q_checked m flag rin min_rho_q r th (rho_av d P j i)

/-- The value `max(q, 0.)` assigned to `A(j, i)` by the kernel `B_field_A`; `none` when the
code divides by zero on the way, so that the value assigned is no real number. -/
def corner_potential_checked (d : Decs K) (m : CMath K) (G : GRCoordinates K)
    (P : GridVars K) (flag : BSeedType) (rin min_rho_q : K) (j i : Int) : Option K :=
  (corner_q_checked d m G P flag rin min_rho_q j i).map (fun q => max q 0)

end Checked

/-- Sample run-time parameters with the seed type and the reference radius `torus/rin`
configured. -/
def samplePinRin (b_field_type : String) (rin : ℚ) : ParameterInput ℚ where
  reals := fun block name => if block = "torus" ∧ name = "rin" then some rin else none
  strings := fun block name =>
    if block = "b_field" ∧ name = "type" then some b_field_type else none

/-! ## Loop ranges and loops -/

section Loops

theorem mem_intRange (lo hi x : Int) : x ∈ intRange lo hi ↔ lo ≤ x ∧ x ≤ hi := by
  unfold intRange
  simp only [List.mem_map, List.mem_range]
  constructor
  · rintro ⟨n, hn, rfl⟩
    omega
  · rintro ⟨h1, h2⟩
    exact ⟨(x - lo).toNat, by omega, by omega⟩

theorem nodup_intRange (lo hi : Int) : (intRange lo hi).Nodup := by
  unfold intRange
  refine (List.nodup_range _).map ?_
  intro a b h
  simpa using h

theorem mem_cells2D (jl ju il iu j i : Int) :
    (j, i) ∈ cells2D jl ju il iu ↔ (jl ≤ j ∧ j ≤ ju) ∧ (il ≤ i ∧ i ≤ iu) := by
  simp [cells2D, mem_intRange]

theorem mem_cells3D (kl ku jl ju il iu k j i : Int) :
    (k, j, i) ∈ cells3D kl ku jl ju il iu ↔
      (kl ≤ k ∧ k ≤ ku) ∧ (jl ≤ j ∧ j ≤ ju) ∧ (il ≤ i ∧ i ≤ iu) := by
  simp [cells3D, mem_intRange]

theorem nodup_cells3D (kl ku jl ju il iu : Int) : (cells3D kl ku jl ju il iu).Nodup :=
  (nodup_intRange _ _).product ((nodup_intRange _ _).product (nodup_intRange _ _))

/-- A loop whose body assigns `A(j, i) = v j i` leaves `v` on the cells visited and the old
content elsewhere. -/
theorem foldl_set_potential (v : Int → Int → K) (l : List (Int × Int))
    (A0 : PotentialArray K) (j i : Int) :
    l.foldl (fun A c => A.set c.1 c.2 (v c.1 c.2)) A0 j i =
      if (j, i) ∈ l then v j i else A0 j i := by
  induction l generalizing A0 with
  | nil => simp
  | cons c l ih =>
    rw [List.foldl_cons, ih]
    by_cases h : (j, i) ∈ l
    · simp [h]
    · by_cases hc : (j, i) = c
      · subst hc
        simp [PotentialArray.set]
      · have hne : ¬ (j = c.1 ∧ i = c.2) := fun hh => hc (Prod.ext hh.1 hh.2)
        simp [h, hc, PotentialArray.set, hne]

/-- A loop whose body assigns the three field components of the cell leaves these values on
the cells visited and the old content elsewhere. -/
theorem foldl_set_B (f1 f2 f3 : Int → Int → Int → K) (l : List (Int × Int × Int))
    (P0 : GridVars K) (p : prims) (k j i : Int) :
    l.foldl (fun P c =>
        ((P.set prims.B1 c.1 c.2.1 c.2.2 (f1 c.1 c.2.1 c.2.2)).set
          prims.B2 c.1 c.2.1 c.2.2 (f2 c.1 c.2.1 c.2.2)).set
          prims.B3 c.1 c.2.1 c.2.2 (f3 c.1 c.2.1 c.2.2)) P0 p k j i =
      if (k, j, i) ∈ l then
        (if p = prims.B3 then f3 k j i else if p = prims.B2 then f2 k j i
          else if p = prims.B1 then f1 k j i else P0 p k j i)
      else P0 p k j i := by
  induction l generalizing P0 with
  | nil => simp
  | cons c l ih =>
    rw [List.foldl_cons, ih]
    by_cases hc : (k, j, i) = c
    · subst hc
      by_cases h : (k, j, i) ∈ l
      · by_cases h3 : p = prims.B3
        · simp [h, h3]
        · by_cases h2 : p = prims.B2
          · simp [h, h2]
          · by_cases h1 : p = prims.B1
            · simp [h, h1]
            · simp [h, h1, h2, h3, GridVars.set]
      · by_cases h3 : p = prims.B3
        · simp [h, h3, GridVars.set]
        · by_cases h2 : p = prims.B2
          · simp [h, h2, GridVars.set]
          · by_cases h1 : p = prims.B1
            · simp [h, h1, GridVars.set]
            · simp [h, h1, h2, h3, GridVars.set]
    · have hne : ¬ (k = c.1 ∧ j = c.2.1 ∧ i = c.2.2) :=
        fun hh => hc (Prod.ext hh.1 (Prod.ext hh.2.1 hh.2.2))
      have hc' : ¬ (k, j, i) = c := hc
      simp [List.mem_cons, hc', GridVars.set, hne]

end Loops

/-! ## `SeedBField`: the two kernels -/

section SeedTheorems

variable [LinearOrderedField K]

/-- Every entry of the potential after the kernel `B_field_A`. -/
theorem B_field_A_apply (d : Decs K) (m : CMath K) (G : GRCoordinates K) (P : GridVars K)
    (flag : BSeedType) (rin min_rho_q : K) (js je is ie j i : Int) :
    B_field_A d m G P flag rin min_rho_q js je is ie j i =
      if (js ≤ j ∧ j ≤ je + 1) ∧ (is ≤ i ∧ i ≤ ie + 1) then
        max (corner_q d m G P flag rin min_rho_q j i) 0
      else 0 := by
  unfold B_field_A par_for_2D
  have h := foldl_set_potential (fun j i => max (corner_q d m G P flag rin min_rho_q j i) 0)
    (cells2D js (je + 1) is (ie + 1)) (fun _ _ => 0) j i
  simp only [mem_cells2D] at h
  exact h

/-- Every entry of the primitives after the kernel `B_field_B`. -/
theorem B_field_B_apply (G : GRCoordinates K) (A : PotentialArray K)
    (ks ke js je is ie : Int) (P : GridVars K) (p : prims) (k j i : Int) :
    B_field_B G A ks ke js je is ie P p k j i =
      if (ks ≤ k ∧ k ≤ ke) ∧ (js ≤ j ∧ j ≤ je) ∧ (is ≤ i ∧ i ≤ ie) then
        (if p = prims.B3 then 0
          else if p = prims.B2 then
            (A j i + A (j + 1) i - A j (i + 1) - A (j + 1) (i + 1)) /
              (2 * G.dx1v i * G.gdet Loci.center j i)
          else if p = prims.B1 then
            -(A j i - A (j + 1) i + A j (i + 1) - A (j + 1) (i + 1)) /
              (2 * G.dx2v j * G.gdet Loci.center j i)
          else P p k j i)
      else P p k j i := by
  unfold B_field_B par_for_3D
  have h := foldl_set_B
    (fun _ j i => -(A j i - A (j + 1) i + A j (i + 1) - A (j + 1) (i + 1)) /
      (2 * G.dx2v j * G.gdet Loci.center j i))
    (fun _ j i => (A j i + A (j + 1) i - A j (i + 1) - A (j + 1) (i + 1)) /
      (2 * G.dx1v i * G.gdet Loci.center j i))
    (fun _ _ _ => (0 : K)) (cells3D ks ke js je is ie) P p k j i
  simp only [mem_cells3D] at h
  exact h

/-- The four recognised formula names and the flags they are translated to. -/
theorem b_field_flag_recognised :
    b_field_flag "sane" = .ok (some BSeedType.sane) ∧
    b_field_flag "ryan" = .ok (some BSeedType.ryan) ∧
    b_field_flag "r3s3" = .ok (some BSeedType.r3s3) ∧
    b_field_flag "gaussian" = .ok (some BSeedType.gaussian) := by
  refine ⟨?_, ?_, ?_, ?_⟩ <;> simp [b_field_flag]

/-- What `SeedBField` leaves behind for a recognised formula. -/
theorem SeedBField_of_flag (d : Decs K) (m : CMath K) (pmb : MeshBlock K) (rc : Container K)
    (pin : ParameterInput K) (flag : BSeedType)
    (hflag : b_field_flag (pin.GetOrAddString "b_field" "type" "none") = .ok (some flag)) :
    SeedBField d m pmb rc pin =
      { status := .ok TaskStatus.complete
        rc := Function.update rc "c.c.bulk.prims"
          (B_field_B pmb.coords
            (B_field_A d m pmb.coords (rc "c.c.bulk.prims") flag
              (pin.GetOrAddReal "torus" "rin" 6.0)
              (pin.GetOrAddReal "b_field" "min_rho_q" 0.2)
              (pmb.cellbounds.js IndexDomain.interior) (pmb.cellbounds.je IndexDomain.interior)
              (pmb.cellbounds.is IndexDomain.interior) (pmb.cellbounds.ie IndexDomain.interior))
            (pmb.cellbounds.ks IndexDomain.interior) (pmb.cellbounds.ke IndexDomain.interior)
            (pmb.cellbounds.js IndexDomain.interior) (pmb.cellbounds.je IndexDomain.interior)
            (pmb.cellbounds.is IndexDomain.interior) (pmb.cellbounds.ie IndexDomain.interior)
            (rc "c.c.bulk.prims"))
        A := some (B_field_A d m pmb.coords (rc "c.c.bulk.prims") flag
              (pin.GetOrAddReal "torus" "rin" 6.0)
              (pin.GetOrAddReal "b_field" "min_rho_q" 0.2)
              (pmb.cellbounds.js IndexDomain.interior) (pmb.cellbounds.je IndexDomain.interior)
              (pmb.cellbounds.is IndexDomain.interior)
              (pmb.cellbounds.ie IndexDomain.interior)) } := by
  unfold SeedBField
  simp only [hflag]

/-! ## Claims on `SeedBField` -/

/-- C1: discrete zero divergence of the seeded field. For every corner potential `A`, uniform
non-zero cell widths `dx1`, `dx2` and a determinant that vanishes at no interior cell, the
fluxes `F1 = gdet * B1`, `F2 = gdet * B2` of the field written by the curl step of
`SeedBField` have flux-CT divergence exactly `0` at every corner `(j, i)` whose four adjacent
cells `(j, i)`, `(j-1, i)`, `(j, i-1)`, `(j-1, i-1)` are interior. -/
theorem C1_flux_ct_divergence_zero (G : GRCoordinates K) (A : PotentialArray K)
    (P : GridVars K) (ks ke js je is ie k j i : Int) (dx1 dx2 : K)
    (hdx1 : dx1 ≠ 0) (hdx2 : dx2 ≠ 0)
    (hu1 : ∀ i', G.dx1v i' = dx1) (hu2 : ∀ j', G.dx2v j' = dx2)
    (hg : ∀ j' i', js ≤ j' → j' ≤ je → is ≤ i' → i' ≤ ie → G.gdet Loci.center j' i' ≠ 0)
    (hk : ks ≤ k ∧ k ≤ ke) (hj : js ≤ j - 1 ∧ j ≤ je) (hi : is ≤ i - 1 ∧ i ≤ ie) :
    flux_ct_divergence
      (fun j' i' => G.gdet Loci.center j' i' *
        B_field_B G A ks ke js je is ie P prims.B1 k j' i')
      (fun j' i' => G.gdet Loci.center j' i' *
        B_field_B G A ks ke js je is ie P prims.B2 k j' i')
      dx1 dx2 j i = 0 := by
  obtain ⟨hk1, hk2⟩ := hk
  obtain ⟨hj1, hj2⟩ := hj
  obtain ⟨hi1, hi2⟩ := hi
  have g00 := hg j i (by omega) hj2 (by omega) hi2
  have g10 := hg (j - 1) i hj1 (by omega) (by omega) hi2
  have g01 := hg j (i - 1) (by omega) hj2 hi1 (by omega)
  have g11 := hg (j - 1) (i - 1) hj1 (by omega) hi1 (by omega)
  have c00 : (ks ≤ k ∧ k ≤ ke) ∧ (js ≤ j ∧ j ≤ je) ∧ (is ≤ i ∧ i ≤ ie) :=
    ⟨⟨hk1, hk2⟩, ⟨by omega, hj2⟩, ⟨by omega, hi2⟩⟩
  have c10 : (ks ≤ k ∧ k ≤ ke) ∧ (js ≤ j - 1 ∧ j - 1 ≤ je) ∧ (is ≤ i ∧ i ≤ ie) :=
    ⟨⟨hk1, hk2⟩, ⟨hj1, by omega⟩, ⟨by omega, hi2⟩⟩
  have c01 : (ks ≤ k ∧ k ≤ ke) ∧ (js ≤ j ∧ j ≤ je) ∧ (is ≤ i - 1 ∧ i - 1 ≤ ie) :=
    ⟨⟨hk1, hk2⟩, ⟨by omega, hj2⟩, ⟨hi1, by omega⟩⟩
  have c11 : (ks ≤ k ∧ k ≤ ke) ∧ (js ≤ j - 1 ∧ j - 1 ≤ je) ∧ (is ≤ i - 1 ∧ i - 1 ≤ ie) :=
    ⟨⟨hk1, hk2⟩, ⟨hj1, by omega⟩, ⟨hi1, by omega⟩⟩
  simp only [flux_ct_divergence, B_field_B_apply, if_pos c00, if_pos c10, if_pos c01,
    if_pos c11, hu1, hu2, sub_add_cancel]
  simp only [show prims.B1 ≠ prims.B3 by decide, show prims.B1 ≠ prims.B2 by decide,
    show prims.B2 ≠ prims.B3 by decide, if_false, if_true]
  field_simp
  ring

/-- C1 at a sample input: the corner `(3, 4)` of the sample block, sample potential. -/
theorem C1_flux_ct_divergence_zero_witness :
    flux_ct_divergence
      (fun j' i' => sampleG.gdet Loci.center j' i' *
        B_field_B sampleG sampleA 2 3 2 4 2 5 sampleP prims.B1 2 j' i')
      (fun j' i' => sampleG.gdet Loci.center j' i' *
        B_field_B sampleG sampleA 2 3 2 4 2 5 sampleP prims.B2 2 j' i')
      (1 / 2) (1 / 4) 3 4 = 0 :=
  C1_flux_ct_divergence_zero sampleG sampleA sampleP 2 3 2 4 2 5 2 3 4 (1 / 2) (1 / 4)
    (by norm_num) (by norm_num) (fun _ => rfl) (fun _ => rfl)
    (fun j' i' _ _ _ _ => by
      have h : (0 : ℚ) < 1 + (j' : ℚ) ^ 2 + (i' : ℚ) ^ 2 := by positivity
      exact ne_of_gt h)
    (by decide) (by decide) (by decide)

/-- Where no divisor of the formula vanishes, the explicit divisions give the value of
`seed_q`. -/
theorem seed_q_checked_eq (m : CMath K) (flag : BSeedType) (rin min_rho_q r th rho_av : K)
    (hrin : flag = BSeedType.sane ∨ rin ≠ 0)
    (hmath : flag = BSeedType.gaussian →
      m.sqrt (2 * m.log 2) ≠ 0 ∧ m.sqrt (2 * m.M_PI) ≠ 0) :
    seed_q_checked m flag rin min_rho_q r th rho_av =
      some (seed_q m flag rin min_rho_q r th rho_av) := by
  cases flag with
  | sane => rfl
  | ryan =>
    have h : rin ≠ 0 := hrin.resolve_left (by decide)
    simp [seed_q_checked, seed_q, checked_div, h]
  | r3s3 =>
    have h : rin ≠ 0 := hrin.resolve_left (by decide)
    simp [seed_q_checked, seed_q, checked_div, h]
  | gaussian =>
    have h : rin ≠ 0 := hrin.resolve_left (by decide)
    obtain ⟨h1, h2⟩ := hmath rfl
    have h3 : |2 / m.sqrt (2 * m.log 2)| ≠ 0 :=
      abs_ne_zero.mpr (div_ne_zero two_ne_zero h1)
    have h4 : m.sqrt (2 * m.M_PI) * |2 / m.sqrt (2 * m.log 2)| ≠ 0 := mul_ne_zero h2 h3
    simp only [seed_q_checked, seed_q, checked_div, if_neg h, if_neg h1, if_neg h3, if_neg h4,
      Option.some_bind]

/-- At `rin = 0` the formulas that divide by `rin` have no real value. -/
theorem seed_q_checked_zero_rin (m : CMath K) (flag : BSeedType) (min_rho_q r th rho_av : K)
    (hflag : flag ≠ BSeedType.sane) :
    seed_q_checked m flag 0 min_rho_q r th rho_av = none := by
  cases flag with
  | sane => exact absurd rfl hflag
  | ryan => simp [seed_q_checked, checked_div]
  | r3s3 => simp [seed_q_checked, checked_div]
  | gaussian => simp [seed_q_checked, checked_div]

/-- C2, as amended: for each of the four seeding formulas, every density field, every
`min_rho_q`, every coordinate and every `rin ≠ 0` (for `sane`, which does not use `rin`, also
`rin = 0`), no division of the formula is a division by zero, and the corner potential written
by `SeedBField` at a corner `j` in `js..je+1`, `i` in `is..ie+1` equals `max(q, 0)` for the
`q` of the formula and is non-negative. For `gaussian` the two constants `sqrt(2*log(2))`
and `sqrt(2*M_PI)` of the math library are taken to be non-zero, as they are. -/
theorem C2_potential_clamped_nonneg (d : Decs K) (m : CMath K) (pmb : MeshBlock K)
    (rc : Container K) (pin : ParameterInput K) (flag : BSeedType) (j i : Int)
    (hflag : b_field_flag (pin.GetOrAddString "b_field" "type" "none") = .ok (some flag))
    (hrin : flag = BSeedType.sane ∨ pin.GetOrAddReal "torus" "rin" 6.0 ≠ 0)
    (hmath : flag = BSeedType.gaussian →
      m.sqrt (2 * m.log 2) ≠ 0 ∧ m.sqrt (2 * m.M_PI) ≠ 0)
    (hj : pmb.cellbounds.js IndexDomain.interior ≤ j ∧
      j ≤ pmb.cellbounds.je IndexDomain.interior + 1)
    (hi : pmb.cellbounds.is IndexDomain.interior ≤ i ∧
      i ≤ pmb.cellbounds.ie IndexDomain.interior + 1) :
    ∃ A, (SeedBField d m pmb rc pin).A = some A ∧
      corner_q_checked d m pmb.coords (rc "c.c.bulk.prims") flag
        (pin.GetOrAddReal "torus" "rin" 6.0)
        (pin.GetOrAddReal "b_field" "min_rho_q" 0.2) j i =
        some (corner_q d m pmb.coords (rc "c.c.bulk.prims") flag
          (pin.GetOrAddReal "torus" "rin" 6.0)
          (pin.GetOrAddReal "b_field" "min_rho_q" 0.2) j i) ∧
      corner_potential_checked d m pmb.coords (rc "c.c.bulk.prims") flag
        (pin.GetOrAddReal "torus" "rin" 6.0)
        (pin.GetOrAddReal "b_field" "min_rho_q" 0.2) j i = some (A j i) ∧
      A j i = max (corner_q d m pmb.coords (rc "c.c.bulk.prims") flag
        (pin.GetOrAddReal "torus" "rin" 6.0)
        (pin.GetOrAddReal "b_field" "min_rho_q" 0.2) j i) 0 ∧
      0 ≤ A j i := by
  have hq : corner_q_checked d m pmb.coords (rc "c.c.bulk.prims") flag
      (pin.GetOrAddReal "torus" "rin" 6.0)
      (pin.GetOrAddReal "b_field" "min_rho_q" 0.2) j i =
      some (corner_q d m pmb.coords (rc "c.c.bulk.prims") flag
        (pin.GetOrAddReal "torus" "rin" 6.0)
        (pin.GetOrAddReal "b_field" "min_rho_q" 0.2) j i) := by
    simp only [corner_q_checked, corner_q]
    exact seed_q_checked_eq m flag _ _ _ _ _ hrin hmath
  rw [SeedBField_of_flag d m pmb rc pin flag hflag]
  refine ⟨_, rfl, hq, ?_, ?_, ?_⟩
  · rw [corner_potential_checked, hq, B_field_A_apply, if_pos ⟨hj, hi⟩]
    rfl
  · rw [B_field_A_apply, if_pos ⟨hj, hi⟩]
  · rw [B_field_A_apply, if_pos ⟨hj, hi⟩]
    exact le_max_right _ _

/-- C2, as amended, at a sample input: formula `gaussian` on the sample block with the
default `rin = 6`, at the last corner `(5, 6)`. -/
theorem C2_potential_clamped_nonneg_witness :
    ∃ A, (SeedBField sampleDecs sampleMath sampleBlock sampleRc (samplePin "gaussian")).A =
        some A ∧
      corner_q_checked sampleDecs sampleMath sampleBlock.coords (sampleRc "c.c.bulk.prims")
        BSeedType.gaussian ((samplePin "gaussian").GetOrAddReal "torus" "rin" 6.0)
        ((samplePin "gaussian").GetOrAddReal "b_field" "min_rho_q" 0.2) 5 6 =
        some (corner_q sampleDecs sampleMath sampleBlock.coords (sampleRc "c.c.bulk.prims")
          BSeedType.gaussian ((samplePin "gaussian").GetOrAddReal "torus" "rin" 6.0)
          ((samplePin "gaussian").GetOrAddReal "b_field" "min_rho_q" 0.2) 5 6) ∧
      corner_potential_checked sampleDecs sampleMath sampleBlock.coords
        (sampleRc "c.c.bulk.prims") BSeedType.gaussian
        ((samplePin "gaussian").GetOrAddReal "torus" "rin" 6.0)
        ((samplePin "gaussian").GetOrAddReal "b_field" "min_rho_q" 0.2) 5 6 = some (A 5 6) ∧
      A 5 6 = max (corner_q sampleDecs sampleMath sampleBlock.coords (sampleRc "c.c.bulk.prims")
        BSeedType.gaussian ((samplePin "gaussian").GetOrAddReal "torus" "rin" 6.0)
        ((samplePin "gaussian").GetOrAddReal "b_field" "min_rho_q" 0.2) 5 6) 0 ∧
      0 ≤ A 5 6 :=
  C2_potential_clamped_nonneg sampleDecs sampleMath sampleBlock sampleRc
    (samplePin "gaussian") BSeedType.gaussian 5 6
    (by simp [b_field_flag, samplePin, ParameterInput.GetOrAddString])
    (Or.inr (by norm_num [samplePin, ParameterInput.GetOrAddReal]))
    (fun _ => by norm_num [sampleMath])
    (by simp [sampleBlock]) (by simp [sampleBlock])

/-- C2, counterexample: with `rin = 0` configured, the formula `r3s3` and density `0` in every
cell of the sample block, the kernel divides `r = 8` by `rin = 0` at the corner `(2, 2)`
(`pow(inf, 3) * 0` is `NaN` in the code): `q` has no real value there, so the entry `A(2, 2)`
written is not `max(q, 0)` of a real `q` and is not a non-negative real number. -/
theorem C2_potential_zero_rin_counterexample :
    (samplePinRin "r3s3" 0).GetOrAddReal "torus" "rin" 6.0 = 0 ∧
    b_field_flag ((samplePinRin "r3s3" 0).GetOrAddString "b_field" "type" "none") =
      .ok (some BSeedType.r3s3) ∧
    corner_q_checked sampleDecs sampleMath sampleBlock.coords (vacuumRc "c.c.bulk.prims")
      BSeedType.r3s3 ((samplePinRin "r3s3" 0).GetOrAddReal "torus" "rin" 6.0)
      ((samplePinRin "r3s3" 0).GetOrAddReal "b_field" "min_rho_q" 0.2) 2 2 = none ∧
    ¬ ∃ a, corner_potential_checked sampleDecs sampleMath sampleBlock.coords
      (vacuumRc "c.c.bulk.prims") BSeedType.r3s3
      ((samplePinRin "r3s3" 0).GetOrAddReal "torus" "rin" 6.0)
      ((samplePinRin "r3s3" 0).GetOrAddReal "b_field" "min_rho_q" 0.2) 2 2 = some a ∧
      0 ≤ a := by
  have hrin : (samplePinRin "r3s3" 0).GetOrAddReal "torus" "rin" 6.0 = 0 := by
    simp [samplePinRin, ParameterInput.GetOrAddReal]
  have hq : corner_q_checked sampleDecs sampleMath sampleBlock.coords
      (vacuumRc "c.c.bulk.prims") BSeedType.r3s3
      ((samplePinRin "r3s3" 0).GetOrAddReal "torus" "rin" 6.0)
      ((samplePinRin "r3s3" 0).GetOrAddReal "b_field" "min_rho_q" 0.2) 2 2 = none := by
    rw [hrin]
    simp only [corner_q_checked]
    exact seed_q_checked_zero_rin _ _ _ _ _ _ (by decide)
  refine ⟨hrin, by simp [b_field_flag, samplePinRin, ParameterInput.GetOrAddString], hq, ?_⟩
  rintro ⟨a, ha, _⟩
  rw [corner_potential_checked, hq] at ha
  simp at ha

/-- C3: the curl step of `SeedBField` equals the reference discrete curl at every interior
cell `(k, j, i)` with non-zero `dx1v(i)`, `dx2v(j)`, `gdet(j, i)`: `B1` is the negative of the
potential difference across the j-direction over `2 * dx2v(j) * gdet(j, i)`, `B2` the
difference across the i-direction over `2 * dx1v(i) * gdet(j, i)`, and `B3 = 0`; `A` is the
potential the call has built. -/
theorem C3_curl_matches_reference (d : Decs K) (m : CMath K) (pmb : MeshBlock K)
    (rc : Container K) (pin : ParameterInput K) (flag : BSeedType) (k j i : Int)
    (hflag : b_field_flag (pin.GetOrAddString "b_field" "type" "none") = .ok (some flag))
    (hk : pmb.cellbounds.ks IndexDomain.interior ≤ k ∧
      k ≤ pmb.cellbounds.ke IndexDomain.interior)
    (hj : pmb.cellbounds.js IndexDomain.interior ≤ j ∧
      j ≤ pmb.cellbounds.je IndexDomain.interior)
    (hi : pmb.cellbounds.is IndexDomain.interior ≤ i ∧
      i ≤ pmb.cellbounds.ie IndexDomain.interior)
    (_hdx1 : pmb.coords.dx1v i ≠ 0) (_hdx2 : pmb.coords.dx2v j ≠ 0)
    (_hg : pmb.coords.gdet Loci.center j i ≠ 0) :
    ∃ A, (SeedBField d m pmb rc pin).A = some A ∧
      (SeedBField d m pmb rc pin).rc "c.c.bulk.prims" prims.B1 k j i =
        reference_curl_B1 pmb.coords A j i ∧
      (SeedBField d m pmb rc pin).rc "c.c.bulk.prims" prims.B2 k j i =
        reference_curl_B2 pmb.coords A j i ∧
      (SeedBField d m pmb rc pin).rc "c.c.bulk.prims" prims.B3 k j i = 0 := by
  rw [SeedBField_of_flag d m pmb rc pin flag hflag]
  refine ⟨_, rfl, ?_, ?_, ?_⟩
  · simp only [Function.update_same, B_field_B_apply, if_pos (And.intro hk (And.intro hj hi)),
      show prims.B1 ≠ prims.B3 by decide, show prims.B1 ≠ prims.B2 by decide, if_false,
      if_true, reference_curl_B1]
    congr 1
    ring
  · simp only [Function.update_same, B_field_B_apply, if_pos (And.intro hk (And.intro hj hi)),
      show prims.B2 ≠ prims.B3 by decide, if_false, if_true, reference_curl_B2]
    congr 1
    ring
  · simp only [Function.update_same, B_field_B_apply, if_pos (And.intro hk (And.intro hj hi)),
      if_true]

/-- C3 at a sample input: formula `sane` on the sample block, interior cell `(3, 4, 5)`. -/
theorem C3_curl_matches_reference_witness :
    ∃ A, (SeedBField sampleDecs sampleMath sampleBlock sampleRc (samplePin "sane")).A = some A ∧
      (SeedBField sampleDecs sampleMath sampleBlock sampleRc (samplePin "sane")).rc
        "c.c.bulk.prims" prims.B1 3 4 5 = reference_curl_B1 sampleBlock.coords A 4 5 ∧
      (SeedBField sampleDecs sampleMath sampleBlock sampleRc (samplePin "sane")).rc
        "c.c.bulk.prims" prims.B2 3 4 5 = reference_curl_B2 sampleBlock.coords A 4 5 ∧
      (SeedBField sampleDecs sampleMath sampleBlock sampleRc (samplePin "sane")).rc
        "c.c.bulk.prims" prims.B3 3 4 5 = 0 :=
  C3_curl_matches_reference sampleDecs sampleMath sampleBlock sampleRc (samplePin "sane")
    BSeedType.sane 3 4 5 (by simp [b_field_flag, samplePin, ParameterInput.GetOrAddString])
    (by simp [sampleBlock]) (by simp [sampleBlock]) (by simp [sampleBlock])
    (by simp [sampleBlock, sampleG]) (by simp [sampleBlock, sampleG])
    (by norm_num [sampleBlock, sampleG])

/-- C4: `SeedBField` throws `invalid_argument` if and only if the configured seed type is
not one of `none`, `sane`, `ryan`, `r3s3`, `gaussian`; a call that throws has left the
container unchanged and has created no potential, so no formula has been applied. -/
theorem C4_invalid_seed_type (d : Decs K) (m : CMath K) (pmb : MeshBlock K)
    (rc : Container K) (pin : ParameterInput K) :
    ((SeedBField d m pmb rc pin).status =
        .error (Exception.invalid_argument ("Magnetic field seed type not supported: " ++
          pin.GetOrAddString "b_field" "type" "none")) ↔
      pin.GetOrAddString "b_field" "type" "none" ∉
        ["none", "sane", "ryan", "r3s3", "gaussian"]) ∧
    ((∃ e, (SeedBField d m pmb rc pin).status = .error e) ↔
      pin.GetOrAddString "b_field" "type" "none" ∉
        ["none", "sane", "ryan", "r3s3", "gaussian"]) ∧
    ((∃ e, (SeedBField d m pmb rc pin).status = .error e) →
      (SeedBField d m pmb rc pin).rc = rc ∧ (SeedBField d m pmb rc pin).A = none) := by
  generalize ht : pin.GetOrAddString "b_field" "type" "none" = t
  unfold SeedBField
  simp only [ht, b_field_flag, List.mem_cons, List.mem_singleton, List.not_mem_nil, or_false,
    not_or]
  by_cases h0 : t = "none"
  · simp [h0]
  · by_cases h1 : t = "sane"
    · simp [h1]
    · by_cases h2 : t = "ryan"
      · simp [h2]
      · by_cases h3 : t = "r3s3"
        · simp [h3]
        · by_cases h4 : t = "gaussian"
          · simp [h4]
          · simp [h0, h1, h2, h3, h4]

/-- C5: for seed type `none`, `SeedBField` returns `complete` and leaves every entry of the
container, all components of the primitive field included, as it was before the call. -/
theorem C5_none_is_noop (d : Decs K) (m : CMath K) (pmb : MeshBlock K) (rc : Container K)
    (pin : ParameterInput K) (hnone : pin.GetOrAddString "b_field" "type" "none" = "none") :
    (SeedBField d m pmb rc pin).status = .ok TaskStatus.complete ∧
    (SeedBField d m pmb rc pin).rc = rc ∧
    (∀ p k j i, (SeedBField d m pmb rc pin).rc "c.c.bulk.prims" p k j i =
      rc "c.c.bulk.prims" p k j i) := by
  unfold SeedBField
  simp [hnone, b_field_flag]

/-- C5 at a sample input: seed type `none` configured on the sample block. -/
theorem C5_none_is_noop_witness :
    (SeedBField sampleDecs sampleMath sampleBlock sampleRc (samplePin "none")).status =
      .ok TaskStatus.complete ∧
    (SeedBField sampleDecs sampleMath sampleBlock sampleRc (samplePin "none")).rc = sampleRc ∧
    (∀ p k j i, (SeedBField sampleDecs sampleMath sampleBlock sampleRc (samplePin "none")).rc
      "c.c.bulk.prims" p k j i = sampleRc "c.c.bulk.prims" p k j i) :=
  C5_none_is_noop sampleDecs sampleMath sampleBlock sampleRc (samplePin "none")
    (by simp [samplePin, ParameterInput.GetOrAddString])

end SeedTheorems

/-! ## Claims on `UpdateContainer` -/

section StageTheorems

variable [LinearOrderedField K]

/-- The two states of `UpdateContainer` when the three vector reads are in range. -/
theorem UpdateContainer_states_eq (pmb : MeshBlock K) (rcs : ContainerCollection K)
    (stage : Int) (stage_name : List String) (integrator : Integrator K) (beta : K)
    (name_in name_out : String)
    (hbeta : vector_at integrator.beta (stage - 1) = some beta)
    (hin : vector_at stage_name (stage - 1) = some name_in)
    (hout : vector_at stage_name stage = some name_out) :
    UpdateContainer_states pmb rcs stage stage_name integrator =
      some (blend_stage rcs name_in beta,
        update_stage (blend_stage rcs name_in beta) name_in name_out (beta * pmb.dt)) := by
  unfold UpdateContainer_states
  simp only [hbeta, hin, hout]

/-- The result of `UpdateContainer` when the three vector reads are in range. -/
theorem UpdateContainer_eq (pmb : MeshBlock K) (rcs : ContainerCollection K) (stage : Int)
    (stage_name : List String) (integrator : Integrator K) (beta : K)
    (name_in name_out : String)
    (hbeta : vector_at integrator.beta (stage - 1) = some beta)
    (hin : vector_at stage_name (stage - 1) = some name_in)
    (hout : vector_at stage_name stage = some name_out) :
    UpdateContainer pmb rcs stage stage_name integrator =
      some (TaskStatus.complete,
        update_stage (blend_stage rcs name_in beta) name_in name_out (beta * pmb.dt)) := by
  unfold UpdateContainer
  rw [UpdateContainer_states_eq pmb rcs stage stage_name integrator beta name_in name_out
    hbeta hin hout]
  rfl

/-- The blend with weight `1` changes no container. -/
theorem blend_stage_one (rcs : ContainerCollection K) (name_in : String) :
    blend_stage rcs name_in 1 = rcs := by
  have hblend : parthenon.Update.AverageContainers (rcs name_in) (rcs "base") 1 =
      rcs name_in := by
    funext v p k j i
    simp [parthenon.Update.AverageContainers]
  unfold blend_stage
  simp only [hblend, Function.update_eq_self]

/-- The blend with weight `0` makes `cin` a copy of `base`. -/
theorem blend_stage_zero (rcs : ContainerCollection K) (name_in : String) :
    blend_stage rcs name_in 0 name_in = rcs "base" := by
  unfold blend_stage
  simp only [Function.update_same]
  funext v p k j i
  simp [parthenon.Update.AverageContainers]

/-- C6: `UpdateContainer` for sub-stage `stage`, with `beta = integrator.beta[stage-1]`,
`cin` the container named `stage_name[stage-1]`, `cout` the one named `stage_name[stage]`, and
`base`, `dUdt`, `cin`, `cout` pairwise distinct containers, returns `complete` and leaves every
entry of `cin` equal to `beta*cin_old + (1-beta)*base`, every entry of `cout` equal to
`beta*cin_old + (1-beta)*base + beta*dt*dUdt`, and `base` and `dUdt` unchanged. -/
theorem C6_stage_update (pmb : MeshBlock K) (rcs : ContainerCollection K) (stage : Int)
    (stage_name : List String) (integrator : Integrator K) (beta : K)
    (name_in name_out : String)
    (hbeta : vector_at integrator.beta (stage - 1) = some beta)
    (hin : vector_at stage_name (stage - 1) = some name_in)
    (hout : vector_at stage_name stage = some name_out)
    (hio : name_in ≠ name_out) (hib : name_in ≠ "base") (hid : name_in ≠ "dUdt")
    (hob : name_out ≠ "base") (hod : name_out ≠ "dUdt") :
    ∃ rcs', UpdateContainer pmb rcs stage stage_name integrator =
        some (TaskStatus.complete, rcs') ∧
      (∀ v p k j i, rcs' name_in v p k j i =
        beta * rcs name_in v p k j i + (1 - beta) * rcs "base" v p k j i) ∧
      (∀ v p k j i, rcs' name_out v p k j i =
        beta * rcs name_in v p k j i + (1 - beta) * rcs "base" v p k j i +
          beta * pmb.dt * rcs "dUdt" v p k j i) ∧
      rcs' "base" = rcs "base" ∧ rcs' "dUdt" = rcs "dUdt" := by
  refine ⟨_, UpdateContainer_eq pmb rcs stage stage_name integrator beta name_in name_out
    hbeta hin hout, ?_, ?_, ?_, ?_⟩
  · intro v p k j i
    simp only [update_stage, blend_stage, Function.update_noteq hio, Function.update_same,
      parthenon.Update.AverageContainers]
  · intro v p k j i
    simp only [update_stage, blend_stage, Function.update_same,
      Function.update_noteq (Ne.symm hid), parthenon.Update.AverageContainers,
      parthenon.Update.UpdateContainer]
  · simp only [update_stage, blend_stage, Function.update_noteq (Ne.symm hob),
      Function.update_noteq (Ne.symm hib)]
  · simp only [update_stage, blend_stage, Function.update_noteq (Ne.symm hod),
      Function.update_noteq (Ne.symm hid)]

/-- C6 at a sample input: the second stage of the sample scheme. -/
theorem C6_stage_update_witness :
    ∃ rcs', UpdateContainer sampleBlock sampleCollection 2 sampleStageNames sampleIntegrator =
        some (TaskStatus.complete, rcs') ∧
      (∀ v p k j i, rcs' "stage1" v p k j i =
        1 / 4 * sampleCollection "stage1" v p k j i +
          (1 - 1 / 4) * sampleCollection "base" v p k j i) ∧
      (∀ v p k j i, rcs' "stage2" v p k j i =
        1 / 4 * sampleCollection "stage1" v p k j i +
          (1 - 1 / 4) * sampleCollection "base" v p k j i +
          1 / 4 * sampleBlock.dt * sampleCollection "dUdt" v p k j i) ∧
      rcs' "base" = sampleCollection "base" ∧ rcs' "dUdt" = sampleCollection "dUdt" :=
  C6_stage_update sampleBlock sampleCollection 2 sampleStageNames sampleIntegrator (1 / 4)
    "stage1" "stage2" (by simp [vector_at, sampleIntegrator])
    (by simp [vector_at, sampleStageNames]) (by simp [vector_at, sampleStageNames])
    (by decide) (by decide) (by decide) (by decide) (by decide)

/-- C7: blend-weight endpoints of `UpdateContainer`. With `beta = 1` (integrator `one`) the
blend leaves `cin`, and every other container, unchanged whatever `base` is, and
`cout = cin + dt*dUdt`; at the end of the call `cin` is still unchanged when `cout` is another
container. With `beta = 0` (integrator `zero`) the blend makes `cin` an exact copy of `base`,
and at the end of the call `cin` and `cout` both equal that copy of `base`, whatever `dUdt`
is. -/
theorem C7_blend_endpoints (pmb : MeshBlock K) (rcs : ContainerCollection K) (stage : Int)
    (stage_name : List String) (one zero : Integrator K) (name_in name_out : String)
    (hone : vector_at one.beta (stage - 1) = some 1)
    (hzero : vector_at zero.beta (stage - 1) = some 0)
    (hin : vector_at stage_name (stage - 1) = some name_in)
    (hout : vector_at stage_name stage = some name_out) :
    (∃ rcs1 rcs', UpdateContainer_states pmb rcs stage stage_name one = some (rcs1, rcs') ∧
      UpdateContainer pmb rcs stage stage_name one = some (TaskStatus.complete, rcs') ∧
      rcs1 = rcs ∧
      (∀ v p k j i, rcs' name_out v p k j i =
        rcs name_in v p k j i + pmb.dt * rcs "dUdt" v p k j i) ∧
      (name_in ≠ name_out → rcs' name_in = rcs name_in)) ∧
    (∃ rcs1 rcs', UpdateContainer_states pmb rcs stage stage_name zero = some (rcs1, rcs') ∧
      UpdateContainer pmb rcs stage stage_name zero = some (TaskStatus.complete, rcs') ∧
      rcs1 name_in = rcs "base" ∧ rcs' name_in = rcs "base" ∧ rcs' name_out = rcs "base") := by
  constructor
  · refine ⟨_, _, UpdateContainer_states_eq pmb rcs stage stage_name one 1 name_in name_out
      hone hin hout, UpdateContainer_eq pmb rcs stage stage_name one 1 name_in name_out
      hone hin hout, blend_stage_one rcs name_in, ?_, ?_⟩
    · intro v p k j i
      rw [blend_stage_one]
      simp [update_stage, parthenon.Update.UpdateContainer]
    · intro hio
      rw [blend_stage_one]
      simp only [update_stage, Function.update_noteq hio]
  · have hcout : update_stage (blend_stage rcs name_in 0) name_in name_out (0 * pmb.dt)
        name_out = rcs "base" := by
      simp only [update_stage, Function.update_same, blend_stage_zero]
      funext v p k j i
      simp [parthenon.Update.UpdateContainer]
    refine ⟨_, _, UpdateContainer_states_eq pmb rcs stage stage_name zero 0 name_in name_out
      hzero hin hout, UpdateContainer_eq pmb rcs stage stage_name zero 0 name_in name_out
      hzero hin hout, blend_stage_zero rcs name_in, ?_, hcout⟩
    by_cases hio : name_in = name_out
    · rw [hio]
      rw [hio] at hcout
      exact hcout
    · have hstep : update_stage (blend_stage rcs name_in 0) name_in name_out (0 * pmb.dt)
          name_in = blend_stage rcs name_in 0 name_in := by
        simp only [update_stage, Function.update_noteq hio]
      rw [hstep, blend_stage_zero]

/-- C7 at a sample input: the second stage of the sample scheme, with blend weights `1`
and `0`. -/
theorem C7_blend_endpoints_witness :
    (∃ rcs1 rcs', UpdateContainer_states sampleBlock sampleCollection 2 sampleStageNames
        sampleIntegratorOne = some (rcs1, rcs') ∧
      UpdateContainer sampleBlock sampleCollection 2 sampleStageNames
        sampleIntegratorOne = some (TaskStatus.complete, rcs') ∧
      rcs1 = sampleCollection ∧
      (∀ v p k j i, rcs' "stage2" v p k j i =
        sampleCollection "stage1" v p k j i +
          sampleBlock.dt * sampleCollection "dUdt" v p k j i) ∧
      ("stage1" ≠ "stage2" → rcs' "stage1" = sampleCollection "stage1")) ∧
    (∃ rcs1 rcs', UpdateContainer_states sampleBlock sampleCollection 2 sampleStageNames
        sampleIntegratorZero = some (rcs1, rcs') ∧
      UpdateContainer sampleBlock sampleCollection 2 sampleStageNames
        sampleIntegratorZero = some (TaskStatus.complete, rcs') ∧
      rcs1 "stage1" = sampleCollection "base" ∧ rcs' "stage1" = sampleCollection "base" ∧
      rcs' "stage2" = sampleCollection "base") :=
  C7_blend_endpoints sampleBlock sampleCollection 2 sampleStageNames sampleIntegratorOne
    sampleIntegratorZero "stage1" "stage2" (by simp [vector_at, sampleIntegratorOne])
    (by simp [vector_at, sampleIntegratorZero])
    (by simp [vector_at, sampleStageNames]) (by simp [vector_at, sampleStageNames])

end StageTheorems

/-! ## `NormalizeBField` -/

section NormalizeTheorems

variable [LinearOrderedField K] {FV : Type}

/-- The primitives after the body of `B_field_normalize` at cell `(k, j, i)`. -/
theorem B_field_normalize_body_P (ph : Phys K FV) (G : GRCoordinates K) (eos : EOS K)
    (factor : K) (k j i : Int) (PU : GridVars K × GridVars K) (p : prims) (k' j' i' : Int) :
    (B_field_normalize_body ph G eos factor k j i PU).1 p k' j' i' =
      if (k' = k ∧ j' = j ∧ i' = i) ∧ (p = prims.B1 ∨ p = prims.B2 ∨ p = prims.B3) then
        PU.1 p k' j' i' / factor
      else PU.1 p k' j' i' := by
  by_cases hc : k' = k ∧ j' = j ∧ i' = i
  · obtain ⟨rfl, rfl, rfl⟩ := hc
    cases p <;> simp [B_field_normalize_body, GridVars.set]
  · cases p <;> simp [B_field_normalize_body, GridVars.set, hc]

/-- The conserved image after the body of `B_field_normalize` at cell `(k, j, i)`. -/
theorem B_field_normalize_body_U (ph : Phys K FV) (G : GRCoordinates K) (eos : EOS K)
    (factor : K) (k j i : Int) (PU : GridVars K × GridVars K) (p : prims) (k' j' i' : Int) :
    (B_field_normalize_body ph G eos factor k j i PU).2 p k' j' i' =
      if k' = k ∧ j' = j ∧ i' = i then
        ph.prim_to_flux G (B_field_normalize_body ph G eos factor k j i PU).1
          (ph.get_state G (B_field_normalize_body ph G eos factor k j i PU).1 k j i
            Loci.center) eos k j i Loci.center 0 p
      else PU.2 p k' j' i' := by
  simp only [B_field_normalize_body, GridVars.setCell]

/-- The primitives after the normalisation loop over a list of distinct cells. -/
theorem foldl_normalize_P (ph : Phys K FV) (G : GRCoordinates K) (eos : EOS K) (factor : K)
    (l : List (Int × Int × Int)) (hl : l.Nodup) (PU0 : GridVars K × GridVars K)
    (p : prims) (k j i : Int) :
    (l.foldl (fun s c => B_field_normalize_body ph G eos factor c.1 c.2.1 c.2.2 s) PU0).1
        p k j i =
      if (k, j, i) ∈ l ∧ (p = prims.B1 ∨ p = prims.B2 ∨ p = prims.B3) then
        PU0.1 p k j i / factor
      else PU0.1 p k j i := by
  induction l generalizing PU0 with
  | nil => simp
  | cons c l ih =>
    obtain ⟨hc, hl'⟩ := List.nodup_cons.mp hl
    rw [List.foldl_cons, ih hl', B_field_normalize_body_P]
    by_cases h : (k, j, i) = c
    · subst h
      simp [hc]
    · have hne : ¬ (k = c.1 ∧ j = c.2.1 ∧ i = c.2.2) :=
        fun hh => h (Prod.ext hh.1 (Prod.ext hh.2.1 hh.2.2))
      simp [hne, h, List.mem_cons]

/-- The conserved image after the normalisation loop over a list of distinct cells: at a
visited cell it is `prim_to_flux` of the final primitives. -/
theorem foldl_normalize_U (ph : Phys K FV) (hloc : ph.CellLocal) (G : GRCoordinates K)
    (eos : EOS K) (factor : K) (l : List (Int × Int × Int)) (hl : l.Nodup)
    (PU0 : GridVars K × GridVars K) (p : prims) (k j i : Int) :
    (l.foldl (fun s c => B_field_normalize_body ph G eos factor c.1 c.2.1 c.2.2 s) PU0).2
        p k j i =
      if (k, j, i) ∈ l then
        ph.prim_to_flux G
          (l.foldl (fun s c => B_field_normalize_body ph G eos factor c.1 c.2.1 c.2.2 s) PU0).1
          (ph.get_state G
            (l.foldl (fun s c => B_field_normalize_body ph G eos factor c.1 c.2.1 c.2.2 s)
              PU0).1 k j i Loci.center) eos k j i Loci.center 0 p
      else PU0.2 p k j i := by
  induction l generalizing PU0 with
  | nil => simp
  | cons c l ih =>
    obtain ⟨hc, hl'⟩ := List.nodup_cons.mp hl
    rw [List.foldl_cons, ih hl']
    by_cases hmem : (k, j, i) ∈ l
    · simp [hmem]
    · by_cases h : (k, j, i) = c
      · subst h
        have hagree : ∀ q, (B_field_normalize_body ph G eos factor k j i PU0).1 q k j i =
            (l.foldl (fun s c => B_field_normalize_body ph G eos factor c.1 c.2.1 c.2.2 s)
              (B_field_normalize_body ph G eos factor k j i PU0)).1 q k j i := by
          intro q
          rw [foldl_normalize_P ph G eos factor l hl']
          simp [hmem]
        rw [if_neg hmem, if_pos (List.mem_cons_self _ _), B_field_normalize_body_U,
          if_pos ⟨rfl, rfl, rfl⟩, hloc.1 G _ _ k j i Loci.center hagree,
          hloc.2 G _ _ _ eos k j i Loci.center 0 hagree]
      · have hne : ¬ (k = c.1 ∧ j = c.2.1 ∧ i = c.2.2) :=
          fun hh => h (Prod.ext hh.1 (Prod.ext hh.2.1 hh.2.2))
        have hnot : ¬ (k, j, i) ∈ c :: l := by
          simp [List.mem_cons, h, hmem]
        rw [if_neg hmem, if_neg hnot, B_field_normalize_body_U, if_neg hne]

/-- The sample collaborators read the cell they are called for only. -/
theorem samplePhys_cellLocal : samplePhys.CellLocal := by
  constructor
  · intro G P P' k j i loc h
    simp [samplePhys, h]
  · intro G P P' D eos k j i loc dir h
    funext p
    simp [samplePhys, h]

/-- The status returned by `NormalizeBField`. -/
theorem NormalizeBField_status (ph : Phys K FV) (pmb : MeshBlock K) (rc : Container K)
    (factor : K) : (NormalizeBField ph pmb rc factor).1 = TaskStatus.complete := rfl

/-- Every entry of the primitives after `NormalizeBField`. -/
theorem NormalizeBField_prims (ph : Phys K FV) (pmb : MeshBlock K) (rc : Container K)
    (factor : K) (p : prims) (k j i : Int) :
    (NormalizeBField ph pmb rc factor).2 "c.c.bulk.prims" p k j i =
      if ((pmb.cellbounds.ks IndexDomain.interior ≤ k ∧
            k ≤ pmb.cellbounds.ke IndexDomain.interior) ∧
          (pmb.cellbounds.js IndexDomain.interior ≤ j ∧
            j ≤ pmb.cellbounds.je IndexDomain.interior) ∧
          (pmb.cellbounds.is IndexDomain.interior ≤ i ∧
            i ≤ pmb.cellbounds.ie IndexDomain.interior)) ∧
          (p = prims.B1 ∨ p = prims.B2 ∨ p = prims.B3) then
        rc "c.c.bulk.prims" p k j i / factor
      else rc "c.c.bulk.prims" p k j i := by
  have h := foldl_normalize_P ph pmb.coords (ph.CreateEOS pmb.gamma) factor
    (cells3D (pmb.cellbounds.ks IndexDomain.interior) (pmb.cellbounds.ke IndexDomain.interior)
      (pmb.cellbounds.js IndexDomain.interior) (pmb.cellbounds.je IndexDomain.interior)
      (pmb.cellbounds.is IndexDomain.interior) (pmb.cellbounds.ie IndexDomain.interior))
    (nodup_cells3D _ _ _ _ _ _) (rc "c.c.bulk.prims", rc "c.c.bulk.cons") p k j i
  simp only [mem_cells3D] at h
  unfold NormalizeBField B_field_normalize par_for_3D
  simp only
  rw [Function.update_noteq (by decide), Function.update_same]
  exact h

/-- Every entry of the conserved image after `NormalizeBField`, for collaborators that read
the cell they are called for only. -/
theorem NormalizeBField_cons (ph : Phys K FV) (hloc : ph.CellLocal) (pmb : MeshBlock K)
    (rc : Container K) (factor : K) (p : prims) (k j i : Int) :
    (NormalizeBField ph pmb rc factor).2 "c.c.bulk.cons" p k j i =
      if (pmb.cellbounds.ks IndexDomain.interior ≤ k ∧
            k ≤ pmb.cellbounds.ke IndexDomain.interior) ∧
          (pmb.cellbounds.js IndexDomain.interior ≤ j ∧
            j ≤ pmb.cellbounds.je IndexDomain.interior) ∧
          (pmb.cellbounds.is IndexDomain.interior ≤ i ∧
            i ≤ pmb.cellbounds.ie IndexDomain.interior) then
        ph.prim_to_flux pmb.coords ((NormalizeBField ph pmb rc factor).2 "c.c.bulk.prims")
          (ph.get_state pmb.coords ((NormalizeBField ph pmb rc factor).2 "c.c.bulk.prims")
            k j i Loci.center) (ph.CreateEOS pmb.gamma) k j i Loci.center 0 p
      else rc "c.c.bulk.cons" p k j i := by
  have h := foldl_normalize_U ph hloc pmb.coords (ph.CreateEOS pmb.gamma) factor
    (cells3D (pmb.cellbounds.ks IndexDomain.interior) (pmb.cellbounds.ke IndexDomain.interior)
      (pmb.cellbounds.js IndexDomain.interior) (pmb.cellbounds.je IndexDomain.interior)
      (pmb.cellbounds.is IndexDomain.interior) (pmb.cellbounds.ie IndexDomain.interior))
    (nodup_cells3D _ _ _ _ _ _) (rc "c.c.bulk.prims", rc "c.c.bulk.cons") p k j i
  simp only [mem_cells3D] at h
  unfold NormalizeBField B_field_normalize par_for_3D
  simp only
  have hne : ("c.c.bulk.prims" : String) ≠ "c.c.bulk.cons" := by decide
  simp only [Function.update_same, Function.update_noteq hne]
  exact h

/-! ## Claims on `NormalizeBField` -/

/-- C8: round trip of `NormalizeBField`. For a non-zero factor `f`, normalising by `f` and
then by `1/f` restores `B1`, `B2`, `B3` at every interior cell, and after the round trip the
conserved image of every interior cell equals `prim_to_flux` applied to the final primitives
of that cell (the collaborators reading the cell they are called for only). -/
theorem C8_normalize_round_trip (ph : Phys K FV) (hloc : ph.CellLocal) (pmb : MeshBlock K)
    (rc : Container K) (f : K) (hf : f ≠ 0) (k j i : Int)
    (hk : pmb.cellbounds.ks IndexDomain.interior ≤ k ∧
      k ≤ pmb.cellbounds.ke IndexDomain.interior)
    (hj : pmb.cellbounds.js IndexDomain.interior ≤ j ∧
      j ≤ pmb.cellbounds.je IndexDomain.interior)
    (hi : pmb.cellbounds.is IndexDomain.interior ≤ i ∧
      i ≤ pmb.cellbounds.ie IndexDomain.interior) :
    (NormalizeBField ph pmb (NormalizeBField ph pmb rc f).2 (1 / f)).2
        "c.c.bulk.prims" prims.B1 k j i = rc "c.c.bulk.prims" prims.B1 k j i ∧
    (NormalizeBField ph pmb (NormalizeBField ph pmb rc f).2 (1 / f)).2
        "c.c.bulk.prims" prims.B2 k j i = rc "c.c.bulk.prims" prims.B2 k j i ∧
    (NormalizeBField ph pmb (NormalizeBField ph pmb rc f).2 (1 / f)).2
        "c.c.bulk.prims" prims.B3 k j i = rc "c.c.bulk.prims" prims.B3 k j i ∧
    (∀ p, (NormalizeBField ph pmb (NormalizeBField ph pmb rc f).2 (1 / f)).2
        "c.c.bulk.cons" p k j i =
      ph.prim_to_flux pmb.coords
        ((NormalizeBField ph pmb (NormalizeBField ph pmb rc f).2 (1 / f)).2 "c.c.bulk.prims")
        (ph.get_state pmb.coords
          ((NormalizeBField ph pmb (NormalizeBField ph pmb rc f).2 (1 / f)).2
            "c.c.bulk.prims") k j i Loci.center)
        (ph.CreateEOS pmb.gamma) k j i Loci.center 0 p) := by
  have hcell := And.intro hk (And.intro hj hi)
  refine ⟨?_, ?_, ?_, ?_⟩
  · rw [NormalizeBField_prims, NormalizeBField_prims, if_pos ⟨hcell, Or.inl rfl⟩,
      if_pos ⟨hcell, Or.inl rfl⟩]
    field_simp
  · rw [NormalizeBField_prims, NormalizeBField_prims, if_pos ⟨hcell, Or.inr (Or.inl rfl)⟩,
      if_pos ⟨hcell, Or.inr (Or.inl rfl)⟩]
    field_simp
  · rw [NormalizeBField_prims, NormalizeBField_prims, if_pos ⟨hcell, Or.inr (Or.inr rfl)⟩,
      if_pos ⟨hcell, Or.inr (Or.inr rfl)⟩]
    field_simp
  · intro p
    rw [NormalizeBField_cons ph hloc pmb _ (1 / f) p k j i, if_pos hcell]

/-- C8 at a sample input: factor `3` on the sample block, interior cell `(2, 3, 4)`. -/
theorem C8_normalize_round_trip_witness :
    (NormalizeBField samplePhys sampleBlock (NormalizeBField samplePhys sampleBlock sampleRc 3).2
        (1 / 3)).2 "c.c.bulk.prims" prims.B1 2 3 4 = sampleRc "c.c.bulk.prims" prims.B1 2 3 4 ∧
    (NormalizeBField samplePhys sampleBlock (NormalizeBField samplePhys sampleBlock sampleRc 3).2
        (1 / 3)).2 "c.c.bulk.prims" prims.B2 2 3 4 = sampleRc "c.c.bulk.prims" prims.B2 2 3 4 ∧
    (NormalizeBField samplePhys sampleBlock (NormalizeBField samplePhys sampleBlock sampleRc 3).2
        (1 / 3)).2 "c.c.bulk.prims" prims.B3 2 3 4 = sampleRc "c.c.bulk.prims" prims.B3 2 3 4 ∧
    (∀ p, (NormalizeBField samplePhys sampleBlock
        (NormalizeBField samplePhys sampleBlock sampleRc 3).2 (1 / 3)).2
        "c.c.bulk.cons" p 2 3 4 =
      samplePhys.prim_to_flux sampleBlock.coords
        ((NormalizeBField samplePhys sampleBlock
          (NormalizeBField samplePhys sampleBlock sampleRc 3).2 (1 / 3)).2 "c.c.bulk.prims")
        (samplePhys.get_state sampleBlock.coords
          ((NormalizeBField samplePhys sampleBlock
            (NormalizeBField samplePhys sampleBlock sampleRc 3).2 (1 / 3)).2
            "c.c.bulk.prims") 2 3 4 Loci.center)
        (samplePhys.CreateEOS sampleBlock.gamma) 2 3 4 Loci.center 0 p) :=
  C8_normalize_round_trip samplePhys samplePhys_cellLocal sampleBlock sampleRc 3 (by norm_num)
    2 3 4 (by simp [sampleBlock]) (by simp [sampleBlock]) (by simp [sampleBlock])

/-- C9: after `NormalizeBField` with a non-zero factor, at every interior cell the three
field components equal their previous values divided by the factor, every other primitive
(density, internal energy, velocities) is unchanged, and the conserved image of the cell
equals `prim_to_flux` evaluated on the rescaled primitives (the collaborators reading the
cell they are called for only); the task returns `complete`. -/
theorem C9_normalize_consistent (ph : Phys K FV) (hloc : ph.CellLocal) (pmb : MeshBlock K)
    (rc : Container K) (factor : K) (_hf : factor ≠ 0) (k j i : Int)
    (hk : pmb.cellbounds.ks IndexDomain.interior ≤ k ∧
      k ≤ pmb.cellbounds.ke IndexDomain.interior)
    (hj : pmb.cellbounds.js IndexDomain.interior ≤ j ∧
      j ≤ pmb.cellbounds.je IndexDomain.interior)
    (hi : pmb.cellbounds.is IndexDomain.interior ≤ i ∧
      i ≤ pmb.cellbounds.ie IndexDomain.interior) :
    (NormalizeBField ph pmb rc factor).1 = TaskStatus.complete ∧
    (NormalizeBField ph pmb rc factor).2 "c.c.bulk.prims" prims.B1 k j i =
      rc "c.c.bulk.prims" prims.B1 k j i / factor ∧
    (NormalizeBField ph pmb rc factor).2 "c.c.bulk.prims" prims.B2 k j i =
      rc "c.c.bulk.prims" prims.B2 k j i / factor ∧
    (NormalizeBField ph pmb rc factor).2 "c.c.bulk.prims" prims.B3 k j i =
      rc "c.c.bulk.prims" prims.B3 k j i / factor ∧
    (∀ p, p ≠ prims.B1 → p ≠ prims.B2 → p ≠ prims.B3 →
      (NormalizeBField ph pmb rc factor).2 "c.c.bulk.prims" p k j i =
        rc "c.c.bulk.prims" p k j i) ∧
    (∀ p, (NormalizeBField ph pmb rc factor).2 "c.c.bulk.cons" p k j i =
      ph.prim_to_flux pmb.coords ((NormalizeBField ph pmb rc factor).2 "c.c.bulk.prims")
        (ph.get_state pmb.coords ((NormalizeBField ph pmb rc factor).2 "c.c.bulk.prims")
          k j i Loci.center)
        (ph.CreateEOS pmb.gamma) k j i Loci.center 0 p) := by
  have hcell := And.intro hk (And.intro hj hi)
  refine ⟨rfl, ?_, ?_, ?_, ?_, ?_⟩
  · rw [NormalizeBField_prims, if_pos ⟨hcell, Or.inl rfl⟩]
  · rw [NormalizeBField_prims, if_pos ⟨hcell, Or.inr (Or.inl rfl)⟩]
  · rw [NormalizeBField_prims, if_pos ⟨hcell, Or.inr (Or.inr rfl)⟩]
  · intro p h1 h2 h3
    rw [NormalizeBField_prims, if_neg]
    rintro ⟨_, h | h | h⟩
    · exact h1 h
    · exact h2 h
    · exact h3 h
  · intro p
    rw [NormalizeBField_cons ph hloc pmb rc factor p k j i, if_pos hcell]

/-- C9 at a sample input: factor `3` on the sample block, interior cell `(3, 2, 5)`. -/
theorem C9_normalize_consistent_witness :
    (NormalizeBField samplePhys sampleBlock sampleRc 3).1 = TaskStatus.complete ∧
    (NormalizeBField samplePhys sampleBlock sampleRc 3).2 "c.c.bulk.prims" prims.B1 3 2 5 =
      sampleRc "c.c.bulk.prims" prims.B1 3 2 5 / 3 ∧
    (NormalizeBField samplePhys sampleBlock sampleRc 3).2 "c.c.bulk.prims" prims.B2 3 2 5 =
      sampleRc "c.c.bulk.prims" prims.B2 3 2 5 / 3 ∧
    (NormalizeBField samplePhys sampleBlock sampleRc 3).2 "c.c.bulk.prims" prims.B3 3 2 5 =
      sampleRc "c.c.bulk.prims" prims.B3 3 2 5 / 3 ∧
    (∀ p, p ≠ prims.B1 → p ≠ prims.B2 → p ≠ prims.B3 →
      (NormalizeBField samplePhys sampleBlock sampleRc 3).2 "c.c.bulk.prims" p 3 2 5 =
        sampleRc "c.c.bulk.prims" p 3 2 5) ∧
    (∀ p, (NormalizeBField samplePhys sampleBlock sampleRc 3).2 "c.c.bulk.cons" p 3 2 5 =
      samplePhys.prim_to_flux sampleBlock.coords
        ((NormalizeBField samplePhys sampleBlock sampleRc 3).2 "c.c.bulk.prims")
        (samplePhys.get_state sampleBlock.coords
          ((NormalizeBField samplePhys sampleBlock sampleRc 3).2 "c.c.bulk.prims")
          3 2 5 Loci.center)
        (samplePhys.CreateEOS sampleBlock.gamma) 3 2 5 Loci.center 0 p) :=
  C9_normalize_consistent samplePhys samplePhys_cellLocal sampleBlock sampleRc 3 (by norm_num)
    3 2 5 (by simp [sampleBlock]) (by simp [sampleBlock]) (by simp [sampleBlock])

end NormalizeTheorems

/-! ## Claims on `GetLocalBetaMin` -/

section BetaMinTheorems

variable [LinearOrderedField K] {FV : Type}

/-- Membership in the half-open box of the reduction. -/
theorem mem_MDRangePolicy3 (k0 j0 i0 k1 j1 i1 k j i : Int) :
    (k, j, i) ∈ MDRangePolicy3 k0 j0 i0 k1 j1 i1 ↔
      (k0 ≤ k ∧ k < k1) ∧ (j0 ≤ j ∧ j < j1) ∧ (i0 ≤ i ∧ i < i1) := by
  unfold MDRangePolicy3
  rw [mem_cells3D]
  constructor
  · rintro ⟨⟨a, b⟩, ⟨c, e⟩, ⟨f, g⟩⟩
    exact ⟨⟨a, by omega⟩, ⟨c, by omega⟩, ⟨f, by omega⟩⟩
  · rintro ⟨⟨a, b⟩, ⟨c, e⟩, ⟨f, g⟩⟩
    exact ⟨⟨a, by omega⟩, ⟨c, by omega⟩, ⟨f, by omega⟩⟩

/-- The reduction is a lower bound of the identity and of the value of every cell. -/
theorem parallel_reduce_min_le (identity : K) (cells : List (Int × Int × Int))
    (value : Int → Int → Int → K) :
    parallel_reduce_min identity cells value ≤ identity ∧
      ∀ c ∈ cells, parallel_reduce_min identity cells value ≤ value c.1 c.2.1 c.2.2 := by
  unfold parallel_reduce_min
  induction cells generalizing identity with
  | nil => simp
  | cons c l ih =>
    rw [List.foldl_cons]
    obtain ⟨h1, h2⟩ := ih (if value c.1 c.2.1 c.2.2 < identity then value c.1 c.2.1 c.2.2
      else identity)
    have hstep : (if value c.1 c.2.1 c.2.2 < identity then value c.1 c.2.1 c.2.2
        else identity) ≤ identity ∧
        (if value c.1 c.2.1 c.2.2 < identity then value c.1 c.2.1 c.2.2
        else identity) ≤ value c.1 c.2.1 c.2.2 := by
      split_ifs with h
      · exact ⟨le_of_lt h, le_refl _⟩
      · exact ⟨le_refl _, not_lt.mp h⟩
    refine ⟨le_trans h1 hstep.1, ?_⟩
    intro c' hc'
    rcases List.mem_cons.mp hc' with rfl | hmem
    · exact le_trans h1 hstep.2
    · exact h2 c' hmem

/-- The reduction is the identity or the value of one of the cells. -/
theorem parallel_reduce_min_attained (identity : K) (cells : List (Int × Int × Int))
    (value : Int → Int → Int → K) :
    parallel_reduce_min identity cells value = identity ∨
      ∃ c ∈ cells, parallel_reduce_min identity cells value = value c.1 c.2.1 c.2.2 := by
  unfold parallel_reduce_min
  induction cells generalizing identity with
  | nil => simp
  | cons c l ih =>
    rw [List.foldl_cons]
    rcases ih (if value c.1 c.2.1 c.2.2 < identity then value c.1 c.2.1 c.2.2
      else identity) with h | ⟨c', hc', h⟩
    · rw [h]
      split_ifs with hlt
      · exact Or.inr ⟨c, List.mem_cons_self _ _, rfl⟩
      · exact Or.inl rfl
    · exact Or.inr ⟨c', List.mem_cons_of_mem _ hc', h⟩

/-- C10: `GetLocalBetaMin` returns the minimum of `beta` over the interior cells. For a block
with a non-empty interior whose values `beta(k, j, i) = p(rho, u) / (0.5*(bsq + TINY_NUMBER))`
do not exceed the identity the `Min` reducer starts from (the largest representable `Real`),
the returned value is at most `beta(k, j, i)` at every interior cell and equals
`beta(k, j, i)` at some interior cell. -/
theorem C10_beta_min_is_minimum (d : Decs K) (ph : Phys K FV) (identity : K)
    (pmb : MeshBlock K) (rc : Container K)
    (hne : pmb.cellbounds.ks IndexDomain.interior ≤ pmb.cellbounds.ke IndexDomain.interior ∧
      pmb.cellbounds.js IndexDomain.interior ≤ pmb.cellbounds.je IndexDomain.interior ∧
      pmb.cellbounds.is IndexDomain.interior ≤ pmb.cellbounds.ie IndexDomain.interior)
    (hid : ∀ k j i,
      pmb.cellbounds.ks IndexDomain.interior ≤ k ∧ k ≤ pmb.cellbounds.ke IndexDomain.interior →
      pmb.cellbounds.js IndexDomain.interior ≤ j ∧ j ≤ pmb.cellbounds.je IndexDomain.interior →
      pmb.cellbounds.is IndexDomain.interior ≤ i ∧ i ≤ pmb.cellbounds.ie IndexDomain.interior →
      beta_ij d ph pmb.coords (ph.CreateEOS pmb.gamma) (rc "c.c.bulk.prims") k j i ≤
        identity) :
    (∀ k j i,
      pmb.cellbounds.ks IndexDomain.interior ≤ k ∧ k ≤ pmb.cellbounds.ke IndexDomain.interior →
      pmb.cellbounds.js IndexDomain.interior ≤ j ∧ j ≤ pmb.cellbounds.je IndexDomain.interior →
      pmb.cellbounds.is IndexDomain.interior ≤ i ∧ i ≤ pmb.cellbounds.ie IndexDomain.interior →
      GetLocalBetaMin d ph identity pmb rc ≤
        beta_ij d ph pmb.coords (ph.CreateEOS pmb.gamma) (rc "c.c.bulk.prims") k j i) ∧
    (∃ k j i,
      (pmb.cellbounds.ks IndexDomain.interior ≤ k ∧
        k ≤ pmb.cellbounds.ke IndexDomain.interior) ∧
      (pmb.cellbounds.js IndexDomain.interior ≤ j ∧
        j ≤ pmb.cellbounds.je IndexDomain.interior) ∧
      (pmb.cellbounds.is IndexDomain.interior ≤ i ∧
        i ≤ pmb.cellbounds.ie IndexDomain.interior) ∧
      GetLocalBetaMin d ph identity pmb rc =
        beta_ij d ph pmb.coords (ph.CreateEOS pmb.gamma) (rc "c.c.bulk.prims") k j i) := by
  have hmem : ∀ k j i : Int,
      (k, j, i) ∈ MDRangePolicy3 (pmb.cellbounds.ks IndexDomain.interior)
        (pmb.cellbounds.js IndexDomain.interior) (pmb.cellbounds.is IndexDomain.interior)
        (pmb.cellbounds.ke IndexDomain.interior + 1)
        (pmb.cellbounds.je IndexDomain.interior + 1)
        (pmb.cellbounds.ie IndexDomain.interior + 1) ↔
      (pmb.cellbounds.ks IndexDomain.interior ≤ k ∧
        k ≤ pmb.cellbounds.ke IndexDomain.interior) ∧
      (pmb.cellbounds.js IndexDomain.interior ≤ j ∧
        j ≤ pmb.cellbounds.je IndexDomain.interior) ∧
      (pmb.cellbounds.is IndexDomain.interior ≤ i ∧
        i ≤ pmb.cellbounds.ie IndexDomain.interior) := by
    intro k j i
    rw [mem_MDRangePolicy3]
    simp only [Int.lt_add_one_iff]
  have hle := parallel_reduce_min_le identity
    (MDRangePolicy3 (pmb.cellbounds.ks IndexDomain.interior)
      (pmb.cellbounds.js IndexDomain.interior) (pmb.cellbounds.is IndexDomain.interior)
      (pmb.cellbounds.ke IndexDomain.interior + 1)
      (pmb.cellbounds.je IndexDomain.interior + 1)
      (pmb.cellbounds.ie IndexDomain.interior + 1))
    (fun k j i => beta_ij d ph pmb.coords (ph.CreateEOS pmb.gamma) (rc "c.c.bulk.prims") k j i)
  have hat := parallel_reduce_min_attained identity
    (MDRangePolicy3 (pmb.cellbounds.ks IndexDomain.interior)
      (pmb.cellbounds.js IndexDomain.interior) (pmb.cellbounds.is IndexDomain.interior)
      (pmb.cellbounds.ke IndexDomain.interior + 1)
      (pmb.cellbounds.je IndexDomain.interior + 1)
      (pmb.cellbounds.ie IndexDomain.interior + 1))
    (fun k j i => beta_ij d ph pmb.coords (ph.CreateEOS pmb.gamma) (rc "c.c.bulk.prims") k j i)
  have hlow : ∀ k j i,
      pmb.cellbounds.ks IndexDomain.interior ≤ k ∧ k ≤ pmb.cellbounds.ke IndexDomain.interior →
      pmb.cellbounds.js IndexDomain.interior ≤ j ∧ j ≤ pmb.cellbounds.je IndexDomain.interior →
      pmb.cellbounds.is IndexDomain.interior ≤ i ∧ i ≤ pmb.cellbounds.ie IndexDomain.interior →
      GetLocalBetaMin d ph identity pmb rc ≤
        beta_ij d ph pmb.coords (ph.CreateEOS pmb.gamma) (rc "c.c.bulk.prims") k j i :=
    fun k j i hk hj hi => hle.2 (k, j, i) ((hmem k j i).mpr ⟨hk, hj, hi⟩)
  refine ⟨hlow, ?_⟩
  rcases hat with h | ⟨c, hc, h⟩
  · have hk0 : pmb.cellbounds.ks IndexDomain.interior ≤ pmb.cellbounds.ks IndexDomain.interior ∧
        pmb.cellbounds.ks IndexDomain.interior ≤ pmb.cellbounds.ke IndexDomain.interior :=
      ⟨le_refl _, hne.1⟩
    have hj0 : pmb.cellbounds.js IndexDomain.interior ≤ pmb.cellbounds.js IndexDomain.interior ∧
        pmb.cellbounds.js IndexDomain.interior ≤ pmb.cellbounds.je IndexDomain.interior :=
      ⟨le_refl _, hne.2.1⟩
    have hi0 : pmb.cellbounds.is IndexDomain.interior ≤ pmb.cellbounds.is IndexDomain.interior ∧
        pmb.cellbounds.is IndexDomain.interior ≤ pmb.cellbounds.ie IndexDomain.interior :=
      ⟨le_refl _, hne.2.2⟩
    refine ⟨_, _, _, hk0, hj0, hi0, le_antisymm (hlow _ _ _ hk0 hj0 hi0) ?_⟩
    have h' : GetLocalBetaMin d ph identity pmb rc = identity := h
    rw [h']
    exact hid _ _ _ hk0 hj0 hi0
  · obtain ⟨k, j, i⟩ := c
    obtain ⟨hk, hj, hi⟩ := (hmem k j i).mp hc
    exact ⟨k, j, i, hk, hj, hi, h⟩

/-- C10 at a sample input: the sample block and collaborators, the reducer starting from
`10000000`; the minimum is below the value of cell `(2, 3, 4)` and is attained. -/
theorem C10_beta_min_is_minimum_witness :
    GetLocalBetaMin sampleDecs samplePhys 10000000 sampleBlock sampleRc ≤
      beta_ij sampleDecs samplePhys sampleBlock.coords (samplePhys.CreateEOS sampleBlock.gamma)
        (sampleRc "c.c.bulk.prims") 2 3 4 ∧
    (∃ k j i,
      (sampleBlock.cellbounds.ks IndexDomain.interior ≤ k ∧
        k ≤ sampleBlock.cellbounds.ke IndexDomain.interior) ∧
      (sampleBlock.cellbounds.js IndexDomain.interior ≤ j ∧
        j ≤ sampleBlock.cellbounds.je IndexDomain.interior) ∧
      (sampleBlock.cellbounds.is IndexDomain.interior ≤ i ∧
        i ≤ sampleBlock.cellbounds.ie IndexDomain.interior) ∧
      GetLocalBetaMin sampleDecs samplePhys 10000000 sampleBlock sampleRc =
        beta_ij sampleDecs samplePhys sampleBlock.coords
          (samplePhys.CreateEOS sampleBlock.gamma) (sampleRc "c.c.bulk.prims") k j i) := by
  have h := C10_beta_min_is_minimum sampleDecs samplePhys 10000000 sampleBlock sampleRc
    (by simp [sampleBlock])
    (by
      intro k j i hk hj hi
      simp only [sampleBlock, if_true] at hk hj hi
      have hk1 : (2 : ℚ) ≤ (k : ℚ) := by exact_mod_cast hk.1
      have hk2 : (k : ℚ) ≤ 3 := by exact_mod_cast hk.2
      have hj1 : (2 : ℚ) ≤ (j : ℚ) := by exact_mod_cast hj.1
      have hj2 : (j : ℚ) ≤ 4 := by exact_mod_cast hj.2
      have hi1 : (2 : ℚ) ≤ (i : ℚ) := by exact_mod_cast hi.1
      have hi2 : (i : ℚ) ≤ 5 := by exact_mod_cast hi.2
      have hsq : (0 : ℚ) ≤ ((k : ℚ) + 2 * (j : ℚ) - (i : ℚ)) ^ 2 := sq_nonneg _
      simp only [beta_ij, samplePhys, sampleDecs, sampleBlock, sampleRc, sampleP,
        show prims.u ≠ prims.rho by decide, show prims.B1 ≠ prims.rho by decide,
        show prims.B2 ≠ prims.rho by decide, show prims.B3 ≠ prims.rho by decide, if_false]
      rw [div_le_iff₀ (by norm_num; positivity)]
      norm_num
      nlinarith)
  exact ⟨h.1 2 3 4 (by simp [sampleBlock]) (by simp [sampleBlock]) (by simp [sampleBlock]), h.2⟩

/-- The loop body of the reduction is `min`. -/
theorem ite_lt_eq_min (a b : K) : (if a < b then a else b) = min a b := by
  rcases lt_trichotomy a b with h | h | h
  · rw [if_pos h, min_eq_left (le_of_lt h)]
  · subst h
    simp
  · rw [if_neg (not_lt.mpr (le_of_lt h)), min_eq_right (le_of_lt h)]

/-- Lowering the start of the reduction lowers its result by `min`. -/
theorem parallel_reduce_min_start (a b : K) (cells : List (Int × Int × Int))
    (value : Int → Int → Int → K) :
    parallel_reduce_min (min a b) cells value = min a (parallel_reduce_min b cells value) := by
  unfold parallel_reduce_min
  induction cells generalizing b with
  | nil => simp
  | cons c l ih =>
    rw [List.foldl_cons, List.foldl_cons, ite_lt_eq_min, ite_lt_eq_min, min_left_comm, ih]

/-- The reduction over two lists one after the other is the `min` of the two reductions. -/
theorem parallel_reduce_min_append (identity : K) (l₁ l₂ : List (Int × Int × Int))
    (value : Int → Int → Int → K) :
    parallel_reduce_min identity (l₁ ++ l₂) value =
      min (parallel_reduce_min identity l₁ value) (parallel_reduce_min identity l₂ value) := by
  have h1 : parallel_reduce_min identity (l₁ ++ l₂) value =
      parallel_reduce_min (parallel_reduce_min identity l₁ value) l₂ value := by
    unfold parallel_reduce_min
    rw [List.foldl_append]
  have h2 : min (parallel_reduce_min identity l₁ value) identity =
      parallel_reduce_min identity l₁ value :=
    min_eq_left (parallel_reduce_min_le identity l₁ value).1
  rw [h1, ← parallel_reduce_min_start, h2]

/-- The reduction does not depend on the order in which the cells are visited. -/
theorem parallel_reduce_min_perm (identity : K) (l₁ l₂ : List (Int × Int × Int))
    (value : Int → Int → Int → K) (hperm : l₁.Perm l₂) :
    parallel_reduce_min identity l₁ value = parallel_reduce_min identity l₂ value := by
  unfold parallel_reduce_min
  refine List.Perm.foldl_eq' hperm ?_ identity
  intro x _ y _ z
  simp only [ite_lt_eq_min]
  exact min_left_comm _ _ _

/-- Every execution of the reduction gives the reduction over the cells it visits. -/
theorem Reduction.run_eq (identity : K) (value : Int → Int → Int → K) (t : Reduction) :
    t.run identity value = parallel_reduce_min identity t.cells value := by
  induction t with
  | group c => rfl
  | join dest src ihd ihs =>
    simp only [Reduction.run, Reduction.cells]
    rw [ite_lt_eq_min, ihd, ihs, parallel_reduce_min_append, min_comm]

/-- C11: `GetLocalBetaMin` is independent of the visitation order and of the grouping of the
partial reductions. Every execution `t` of the reduction (groups of cells visited in any
order, reduced separately from the identity and combined by `min` in any shape) whose cells
are a permutation of the interior cells returns the scalar `GetLocalBetaMin` returns. -/
theorem C11_beta_min_order_independent (d : Decs K) (ph : Phys K FV) (identity : K)
    (pmb : MeshBlock K) (rc : Container K) (t : Reduction)
    (hperm : t.cells.Perm
      (MDRangePolicy3 (pmb.cellbounds.ks IndexDomain.interior)
        (pmb.cellbounds.js IndexDomain.interior) (pmb.cellbounds.is IndexDomain.interior)
        (pmb.cellbounds.ke IndexDomain.interior + 1)
        (pmb.cellbounds.je IndexDomain.interior + 1)
        (pmb.cellbounds.ie IndexDomain.interior + 1))) :
    GetLocalBetaMin_run d ph identity pmb rc t = GetLocalBetaMin d ph identity pmb rc := by
  unfold GetLocalBetaMin_run GetLocalBetaMin
  simp only
  rw [Reduction.run_eq]
  exact parallel_reduce_min_perm identity _ _ _ hperm

/-- C11 at a sample input: the sample execution on the sample block. -/
theorem C11_beta_min_order_independent_witness :
    GetLocalBetaMin_run sampleDecs samplePhys 10000000 sampleBlock sampleRc sampleReduction =
      GetLocalBetaMin sampleDecs samplePhys 10000000 sampleBlock sampleRc :=
  C11_beta_min_order_independent sampleDecs samplePhys 10000000 sampleBlock sampleRc
    sampleReduction (by
      have h : sampleReduction.cells =
          ((MDRangePolicy3 2 2 2 4 5 6).drop 7).reverse ++ [] ++
            (MDRangePolicy3 2 2 2 4 5 6).take 7 := rfl
      have hb : MDRangePolicy3 (sampleBlock.cellbounds.ks IndexDomain.interior)
          (sampleBlock.cellbounds.js IndexDomain.interior)
          (sampleBlock.cellbounds.is IndexDomain.interior)
          (sampleBlock.cellbounds.ke IndexDomain.interior + 1)
          (sampleBlock.cellbounds.je IndexDomain.interior + 1)
          (sampleBlock.cellbounds.ie IndexDomain.interior + 1) =
          MDRangePolicy3 2 2 2 4 5 6 := by
        simp [sampleBlock]
      rw [h, hb, List.append_nil]
      have h1 : (((MDRangePolicy3 2 2 2 4 5 6).drop 7).reverse ++
          (MDRangePolicy3 2 2 2 4 5 6).take 7).Perm
          ((MDRangePolicy3 2 2 2 4 5 6).take 7 ++ (MDRangePolicy3 2 2 2 4 5 6).drop 7) :=
        List.Perm.trans (List.Perm.append_right _ (List.reverse_perm _))
          List.perm_append_comm
      rw [List.take_append_drop] at h1
      exact h1)

end BetaMinTheorems

/-! ## Scenarios of `SeedBField` -/

section ScenarioTheorems

variable [LinearOrderedField K]

/-- A potential that is constant on the corners of the interior cells gives
`B1 = B2 = B3 = 0` at every interior cell. -/
theorem B_field_B_of_constant (G : GRCoordinates K) (A : PotentialArray K) (c : K)
    (ks ke js je is ie : Int) (P : GridVars K) (k j i : Int)
    (hA : ∀ j' i', js ≤ j' ∧ j' ≤ je + 1 → is ≤ i' ∧ i' ≤ ie + 1 → A j' i' = c)
    (hk : ks ≤ k ∧ k ≤ ke) (hj : js ≤ j ∧ j ≤ je) (hi : is ≤ i ∧ i ≤ ie) :
    B_field_B G A ks ke js je is ie P prims.B1 k j i = 0 ∧
    B_field_B G A ks ke js je is ie P prims.B2 k j i = 0 ∧
    B_field_B G A ks ke js je is ie P prims.B3 k j i = 0 := by
  have h00 := hA j i ⟨hj.1, by omega⟩ ⟨hi.1, by omega⟩
  have h10 := hA (j + 1) i ⟨by omega, by omega⟩ ⟨hi.1, by omega⟩
  have h01 := hA j (i + 1) ⟨hj.1, by omega⟩ ⟨by omega, by omega⟩
  have h11 := hA (j + 1) (i + 1) ⟨by omega, by omega⟩ ⟨by omega, by omega⟩
  simp only [B_field_B_apply, if_pos (And.intro hk (And.intro hj hi)), h00, h10, h01, h11,
    show prims.B1 ≠ prims.B3 by decide, show prims.B1 ≠ prims.B2 by decide,
    show prims.B2 ≠ prims.B3 by decide, if_false, if_true]
  simp

/-- C12: uniform-density scenario. With density `1` in every cell (ghost cells included),
formula `sane` and `min_rho_q = 0.2`, `SeedBField` produces the corner potential
`A(j, i) = 0.8` at every corner `j` in `js..je+1`, `i` in `is..ie+1`, and
`B1 = B2 = B3 = 0` at every interior cell, whatever the cell widths and the determinant. -/
theorem C12_uniform_density (d : Decs K) (m : CMath K) (pmb : MeshBlock K)
    (rc : Container K) (pin : ParameterInput K)
    (htype : pin.GetOrAddString "b_field" "type" "none" = "sane")
    (hq : pin.GetOrAddReal "b_field" "min_rho_q" 0.2 = 0.2)
    (hrho : ∀ k j i, rc "c.c.bulk.prims" prims.rho k j i = 1) :
    ∃ A, (SeedBField d m pmb rc pin).A = some A ∧
      (∀ j i, pmb.cellbounds.js IndexDomain.interior ≤ j ∧
          j ≤ pmb.cellbounds.je IndexDomain.interior + 1 →
        pmb.cellbounds.is IndexDomain.interior ≤ i ∧
          i ≤ pmb.cellbounds.ie IndexDomain.interior + 1 → A j i = 0.8) ∧
      (∀ k j i, pmb.cellbounds.ks IndexDomain.interior ≤ k ∧
          k ≤ pmb.cellbounds.ke IndexDomain.interior →
        pmb.cellbounds.js IndexDomain.interior ≤ j ∧
          j ≤ pmb.cellbounds.je IndexDomain.interior →
        pmb.cellbounds.is IndexDomain.interior ≤ i ∧
          i ≤ pmb.cellbounds.ie IndexDomain.interior →
        (SeedBField d m pmb rc pin).rc "c.c.bulk.prims" prims.B1 k j i = 0 ∧
        (SeedBField d m pmb rc pin).rc "c.c.bulk.prims" prims.B2 k j i = 0 ∧
        (SeedBField d m pmb rc pin).rc "c.c.bulk.prims" prims.B3 k j i = 0) := by
  have hflag : b_field_flag (pin.GetOrAddString "b_field" "type" "none") =
      .ok (some BSeedType.sane) := by
    rw [htype]
    exact b_field_flag_recognised.1
  have hA : ∀ j i, pmb.cellbounds.js IndexDomain.interior ≤ j ∧
        j ≤ pmb.cellbounds.je IndexDomain.interior + 1 →
      pmb.cellbounds.is IndexDomain.interior ≤ i ∧
        i ≤ pmb.cellbounds.ie IndexDomain.interior + 1 →
      B_field_A d m pmb.coords (rc "c.c.bulk.prims") BSeedType.sane
        (pin.GetOrAddReal "torus" "rin" 6.0) (pin.GetOrAddReal "b_field" "min_rho_q" 0.2)
        (pmb.cellbounds.js IndexDomain.interior) (pmb.cellbounds.je IndexDomain.interior)
        (pmb.cellbounds.is IndexDomain.interior) (pmb.cellbounds.ie IndexDomain.interior)
        j i = 0.8 := by
    intro j i hj hi
    rw [B_field_A_apply, if_pos ⟨hj, hi⟩, hq]
    simp only [corner_q, seed_q, rho_av, hrho]
    norm_num
  rw [SeedBField_of_flag d m pmb rc pin BSeedType.sane hflag]
  refine ⟨_, rfl, hA, ?_⟩
  intro k j i hk hj hi
  simp only [Function.update_same]
  exact B_field_B_of_constant pmb.coords _ 0.8 _ _ _ _ _ _ _ k j i hA hk hj hi

/-- C12 at a sample input: the sample block with density `1` everywhere, formula `sane`,
the default `min_rho_q`. -/
theorem C12_uniform_density_witness :
    ∃ A, (SeedBField sampleDecs sampleMath sampleBlock uniformRc (samplePin "sane")).A = some A ∧
      (∀ j i, sampleBlock.cellbounds.js IndexDomain.interior ≤ j ∧
          j ≤ sampleBlock.cellbounds.je IndexDomain.interior + 1 →
        sampleBlock.cellbounds.is IndexDomain.interior ≤ i ∧
          i ≤ sampleBlock.cellbounds.ie IndexDomain.interior + 1 → A j i = 0.8) ∧
      (∀ k j i, sampleBlock.cellbounds.ks IndexDomain.interior ≤ k ∧
          k ≤ sampleBlock.cellbounds.ke IndexDomain.interior →
        sampleBlock.cellbounds.js IndexDomain.interior ≤ j ∧
          j ≤ sampleBlock.cellbounds.je IndexDomain.interior →
        sampleBlock.cellbounds.is IndexDomain.interior ≤ i ∧
          i ≤ sampleBlock.cellbounds.ie IndexDomain.interior →
        (SeedBField sampleDecs sampleMath sampleBlock uniformRc (samplePin "sane")).rc
          "c.c.bulk.prims" prims.B1 k j i = 0 ∧
        (SeedBField sampleDecs sampleMath sampleBlock uniformRc (samplePin "sane")).rc
          "c.c.bulk.prims" prims.B2 k j i = 0 ∧
        (SeedBField sampleDecs sampleMath sampleBlock uniformRc (samplePin "sane")).rc
          "c.c.bulk.prims" prims.B3 k j i = 0) :=
  C12_uniform_density sampleDecs sampleMath sampleBlock uniformRc (samplePin "sane")
    (by simp [samplePin, ParameterInput.GetOrAddString])
    (by simp [samplePin, ParameterInput.GetOrAddReal])
    (fun _ _ _ => by simp [uniformRc])

/-- With density `0` in every cell, the formulas that weigh the density give the same
`q = -min_rho_q` at every corner. -/
theorem corner_q_of_zero_density (d : Decs K) (m : CMath K) (G : GRCoordinates K)
    (P : GridVars K) (flag : BSeedType) (rin min_rho_q : K) (j i : Int)
    (hng : flag ≠ BSeedType.gaussian) (hrho : ∀ k j i, P prims.rho k j i = 0) :
    corner_q d m G P flag rin min_rho_q j i = -min_rho_q := by
  cases flag with
  | sane => simp [corner_q, seed_q, rho_av, hrho]
  | ryan => simp [corner_q, seed_q, rho_av, hrho]
  | r3s3 => simp [corner_q, seed_q, rho_av, hrho]
  | gaussian => exact absurd rfl hng

/-- C13, as amended: zero-density scenario. When the density is zero in every cell,
`SeedBField` with any of the formulas `sane`, `ryan`, `r3s3` (any `rin ≠ 0`, any `min_rho_q`,
any geometry with non-zero cell widths and determinant at the cell) writes
`B1 = B2 = B3 = 0` at every interior cell, and no division of the formula is a division by
zero; with the formula `gaussian`, whose potential does not read the density, it writes
`B3 = 0`. -/
theorem C13_zero_density (d : Decs K) (m : CMath K) (pmb : MeshBlock K)
    (rc : Container K) (pin : ParameterInput K) (flag : BSeedType) (k j i : Int)
    (hflag : b_field_flag (pin.GetOrAddString "b_field" "type" "none") = .ok (some flag))
    (hrho : ∀ k j i, rc "c.c.bulk.prims" prims.rho k j i = 0)
    (hrin : pin.GetOrAddReal "torus" "rin" 6.0 ≠ 0)
    (_hdx1 : pmb.coords.dx1v i ≠ 0) (_hdx2 : pmb.coords.dx2v j ≠ 0)
    (_hg : pmb.coords.gdet Loci.center j i ≠ 0)
    (hk : pmb.cellbounds.ks IndexDomain.interior ≤ k ∧
      k ≤ pmb.cellbounds.ke IndexDomain.interior)
    (hj : pmb.cellbounds.js IndexDomain.interior ≤ j ∧
      j ≤ pmb.cellbounds.je IndexDomain.interior)
    (hi : pmb.cellbounds.is IndexDomain.interior ≤ i ∧
      i ≤ pmb.cellbounds.ie IndexDomain.interior) :
    (SeedBField d m pmb rc pin).rc "c.c.bulk.prims" prims.B3 k j i = 0 ∧
    (flag ≠ BSeedType.gaussian →
      (SeedBField d m pmb rc pin).rc "c.c.bulk.prims" prims.B1 k j i = 0 ∧
      (SeedBField d m pmb rc pin).rc "c.c.bulk.prims" prims.B2 k j i = 0 ∧
      ∀ j' i', corner_q_checked d m pmb.coords (rc "c.c.bulk.prims") flag
        (pin.GetOrAddReal "torus" "rin" 6.0)
        (pin.GetOrAddReal "b_field" "min_rho_q" 0.2) j' i' =
        some (-(pin.GetOrAddReal "b_field" "min_rho_q" 0.2))) := by
  rw [SeedBField_of_flag d m pmb rc pin flag hflag]
  simp only [Function.update_same]
  constructor
  · simp only [B_field_B_apply, if_pos (And.intro hk (And.intro hj hi)), if_true]
  · intro hng
    have hA : ∀ j' i', pmb.cellbounds.js IndexDomain.interior ≤ j' ∧
          j' ≤ pmb.cellbounds.je IndexDomain.interior + 1 →
        pmb.cellbounds.is IndexDomain.interior ≤ i' ∧
          i' ≤ pmb.cellbounds.ie IndexDomain.interior + 1 →
        B_field_A d m pmb.coords (rc "c.c.bulk.prims") flag
          (pin.GetOrAddReal "torus" "rin" 6.0) (pin.GetOrAddReal "b_field" "min_rho_q" 0.2)
          (pmb.cellbounds.js IndexDomain.interior) (pmb.cellbounds.je IndexDomain.interior)
          (pmb.cellbounds.is IndexDomain.interior) (pmb.cellbounds.ie IndexDomain.interior)
          j' i' = max (-(pin.GetOrAddReal "b_field" "min_rho_q" 0.2)) 0 := by
      intro j' i' hj' hi'
      rw [B_field_A_apply, if_pos ⟨hj', hi'⟩, corner_q_of_zero_density d m pmb.coords _ flag _ _
        j' i' hng hrho]
    have h := B_field_B_of_constant pmb.coords _ _ _ _ _ _ _ _ (rc "c.c.bulk.prims") k j i
      hA hk hj hi
    refine ⟨h.1, h.2.1, ?_⟩
    intro j' i'
    have hq : corner_q_checked d m pmb.coords (rc "c.c.bulk.prims") flag
        (pin.GetOrAddReal "torus" "rin" 6.0)
        (pin.GetOrAddReal "b_field" "min_rho_q" 0.2) j' i' =
        some (corner_q d m pmb.coords (rc "c.c.bulk.prims") flag
          (pin.GetOrAddReal "torus" "rin" 6.0)
          (pin.GetOrAddReal "b_field" "min_rho_q" 0.2) j' i') := by
      simp only [corner_q_checked, corner_q]
      exact seed_q_checked_eq m flag _ _ _ _ _ (Or.inr hrin) (fun hgs => absurd hgs hng)
    rw [hq, corner_q_of_zero_density d m pmb.coords _ flag _ _ j' i' hng hrho]

/-- C13, as amended, at a sample input: formula `ryan` on the sample block with density `0`
and the default `rin = 6`, interior cell `(3, 4, 5)`. -/
theorem C13_zero_density_witness :
    (SeedBField sampleDecs sampleMath sampleBlock vacuumRc (samplePin "ryan")).rc
      "c.c.bulk.prims" prims.B3 3 4 5 = 0 ∧
    (BSeedType.ryan ≠ BSeedType.gaussian →
      (SeedBField sampleDecs sampleMath sampleBlock vacuumRc (samplePin "ryan")).rc
        "c.c.bulk.prims" prims.B1 3 4 5 = 0 ∧
      (SeedBField sampleDecs sampleMath sampleBlock vacuumRc (samplePin "ryan")).rc
        "c.c.bulk.prims" prims.B2 3 4 5 = 0 ∧
      ∀ j' i', corner_q_checked sampleDecs sampleMath sampleBlock.coords
        (vacuumRc "c.c.bulk.prims") BSeedType.ryan
        ((samplePin "ryan").GetOrAddReal "torus" "rin" 6.0)
        ((samplePin "ryan").GetOrAddReal "b_field" "min_rho_q" 0.2) j' i' =
        some (-((samplePin "ryan").GetOrAddReal "b_field" "min_rho_q" 0.2))) :=
  C13_zero_density sampleDecs sampleMath sampleBlock vacuumRc (samplePin "ryan")
    BSeedType.ryan 3 4 5 (by simp [b_field_flag, samplePin, ParameterInput.GetOrAddString])
    (fun _ _ _ => by simp [vacuumRc])
    (by norm_num [samplePin, ParameterInput.GetOrAddReal])
    (by simp [sampleBlock, sampleG]) (by simp [sampleBlock, sampleG])
    (by
      have h : (0 : ℚ) < 1 + ((4 : Int) : ℚ) ^ 2 + ((5 : Int) : ℚ) ^ 2 := by positivity
      exact ne_of_gt h)
    (by simp [sampleBlock]) (by simp [sampleBlock]) (by simp [sampleBlock])

/-- C16: axisymmetry of the seeded field. For every recognised formula and any two interior
k-indices `k1`, `k2`, `SeedBField` writes `B1(k1, j, i) = B1(k2, j, i)`,
`B2(k1, j, i) = B2(k2, j, i)` and `B3 = 0` at every interior `(j, i)`, whatever the density;
and the corner potential is built from the density of the layer `k = NGHOST` only: a
container `rc'` with the same density in that layer gives the same potential. -/
theorem C16_axisymmetric (d : Decs K) (m : CMath K) (pmb : MeshBlock K)
    (rc rc' : Container K) (pin : ParameterInput K) (flag : BSeedType) (k1 k2 j i : Int)
    (hflag : b_field_flag (pin.GetOrAddString "b_field" "type" "none") = .ok (some flag))
    (hlayer : ∀ j i, rc' "c.c.bulk.prims" prims.rho d.NGHOST j i =
      rc "c.c.bulk.prims" prims.rho d.NGHOST j i)
    (hk1 : pmb.cellbounds.ks IndexDomain.interior ≤ k1 ∧
      k1 ≤ pmb.cellbounds.ke IndexDomain.interior)
    (hk2 : pmb.cellbounds.ks IndexDomain.interior ≤ k2 ∧
      k2 ≤ pmb.cellbounds.ke IndexDomain.interior)
    (hj : pmb.cellbounds.js IndexDomain.interior ≤ j ∧
      j ≤ pmb.cellbounds.je IndexDomain.interior)
    (hi : pmb.cellbounds.is IndexDomain.interior ≤ i ∧
      i ≤ pmb.cellbounds.ie IndexDomain.interior) :
    (SeedBField d m pmb rc pin).rc "c.c.bulk.prims" prims.B1 k1 j i =
      (SeedBField d m pmb rc pin).rc "c.c.bulk.prims" prims.B1 k2 j i ∧
    (SeedBField d m pmb rc pin).rc "c.c.bulk.prims" prims.B2 k1 j i =
      (SeedBField d m pmb rc pin).rc "c.c.bulk.prims" prims.B2 k2 j i ∧
    (SeedBField d m pmb rc pin).rc "c.c.bulk.prims" prims.B3 k1 j i = 0 ∧
    (SeedBField d m pmb rc pin).rc "c.c.bulk.prims" prims.B3 k2 j i = 0 ∧
    (SeedBField d m pmb rc' pin).A = (SeedBField d m pmb rc pin).A := by
  rw [SeedBField_of_flag d m pmb rc pin flag hflag, SeedBField_of_flag d m pmb rc' pin flag hflag]
  simp only [Function.update_same]
  refine ⟨?_, ?_, ?_, ?_, ?_⟩
  · simp only [B_field_B_apply, if_pos (And.intro hk1 (And.intro hj hi)),
      if_pos (And.intro hk2 (And.intro hj hi)), show prims.B1 ≠ prims.B3 by decide,
      show prims.B1 ≠ prims.B2 by decide, if_false, if_true]
  · simp only [B_field_B_apply, if_pos (And.intro hk1 (And.intro hj hi)),
      if_pos (And.intro hk2 (And.intro hj hi)), show prims.B2 ≠ prims.B3 by decide,
      if_false, if_true]
  · simp only [B_field_B_apply, if_pos (And.intro hk1 (And.intro hj hi)), if_true]
  · simp only [B_field_B_apply, if_pos (And.intro hk2 (And.intro hj hi)), if_true]
  · congr 1
    funext j' i'
    simp only [B_field_A_apply, corner_q, rho_av, hlayer]

/-- C16 at a sample input: formula `r3s3` on the sample block, a density that varies with
`k`, the interior layers `k = 2` and `k = 3`. -/
theorem C16_axisymmetric_witness :
    (SeedBField sampleDecs sampleMath sampleBlock layeredRc (samplePin "r3s3")).rc
        "c.c.bulk.prims" prims.B1 2 3 4 =
      (SeedBField sampleDecs sampleMath sampleBlock layeredRc (samplePin "r3s3")).rc
        "c.c.bulk.prims" prims.B1 3 3 4 ∧
    (SeedBField sampleDecs sampleMath sampleBlock layeredRc (samplePin "r3s3")).rc
        "c.c.bulk.prims" prims.B2 2 3 4 =
      (SeedBField sampleDecs sampleMath sampleBlock layeredRc (samplePin "r3s3")).rc
        "c.c.bulk.prims" prims.B2 3 3 4 ∧
    (SeedBField sampleDecs sampleMath sampleBlock layeredRc (samplePin "r3s3")).rc
      "c.c.bulk.prims" prims.B3 2 3 4 = 0 ∧
    (SeedBField sampleDecs sampleMath sampleBlock layeredRc (samplePin "r3s3")).rc
      "c.c.bulk.prims" prims.B3 3 3 4 = 0 ∧
    (SeedBField sampleDecs sampleMath sampleBlock layeredRc2 (samplePin "r3s3")).A =
      (SeedBField sampleDecs sampleMath sampleBlock layeredRc (samplePin "r3s3")).A :=
  C16_axisymmetric sampleDecs sampleMath sampleBlock layeredRc layeredRc2 (samplePin "r3s3")
    BSeedType.r3s3 2 3 3 4 (by simp [b_field_flag, samplePin, ParameterInput.GetOrAddString])
    (fun j i => by
      simp only [layeredRc, layeredRc2, sampleDecs, if_true]
      push_cast
      ring)
    (by simp [sampleBlock]) (by simp [sampleBlock]) (by simp [sampleBlock])
    (by simp [sampleBlock])

end ScenarioTheorems

/-! ## The formula `gaussian` in real arithmetic -/

section GaussianTheorems

/-- The formula `gaussian` in real arithmetic: a Gaussian in `x = (r/rin)*sin(th)` that
falls by the factor `2` every time `x^2` grows by `4`. -/
theorem seed_q_gaussian_real (rin mrq r th rho : ℝ) :
    seed_q realMath BSeedType.gaussian rin mrq r th rho =
      (1 / (Real.sqrt (2 * Real.pi) * (2 / Real.sqrt (2 * Real.log 2)))) *
        Real.exp (-(((r / rin) * Real.sin th) ^ 2 * Real.log 2 / 4)) := by
  have hlog : 0 < Real.log 2 := Real.log_pos (by norm_num)
  have hs : 0 < Real.sqrt (2 * Real.log 2) := Real.sqrt_pos.mpr (by positivity)
  have hσ : 0 < 2 / Real.sqrt (2 * Real.log 2) := by positivity
  have hsq : Real.sqrt (2 * Real.log 2) ^ 2 = 2 * Real.log 2 := Real.sq_sqrt (by positivity)
  simp only [seed_q, realMath]
  rw [abs_of_pos hσ]
  congr 2
  have hu : r / rin * Real.sin th / (2 / Real.sqrt (2 * Real.log 2)) =
      r / rin * Real.sin th * Real.sqrt (2 * Real.log 2) / 2 := by
    field_simp
  rw [hu]
  have hring : -(r / rin * Real.sin th * Real.sqrt (2 * Real.log 2) / 2) *
      (r / rin * Real.sin th * Real.sqrt (2 * Real.log 2) / 2) / 2 =
      -((r / rin * Real.sin th) ^ 2 * (Real.sqrt (2 * Real.log 2) ^ 2) / 8) := by ring
  rw [hring, hsq]
  ring

/-- The peak value of the formula `gaussian` is positive. -/
theorem gaussian_peak_pos :
    0 < (1 / (Real.sqrt (2 * Real.pi) * (2 / Real.sqrt (2 * Real.log 2)))) := by
  have hlog : 0 < Real.log 2 := Real.log_pos (by norm_num)
  have hs : 0 < Real.sqrt (2 * Real.log 2) := Real.sqrt_pos.mpr (by positivity)
  have hp : 0 < Real.sqrt (2 * Real.pi) := Real.sqrt_pos.mpr (by positivity)
  positivity

/-- The potential of the formula `gaussian` on the equatorial block: at a corner with index
`i` it is the peak value times `exp(-(i^2 * log 2))`, whatever the density. -/
theorem equator_potential (P : GridVars ℝ) (j i : Int)
    (hj : (2 : Int) ≤ j ∧ j ≤ 4 + 1) (hi : (2 : Int) ≤ i ∧ i ≤ 5 + 1) :
    B_field_A realDecs realMath equatorG P BSeedType.gaussian 6.0 0.2 2 4 2 5 j i =
      (1 / (Real.sqrt (2 * Real.pi) * (2 / Real.sqrt (2 * Real.log 2)))) *
        Real.exp (-((i : ℝ) ^ 2 * Real.log 2)) := by
  rw [B_field_A_apply, if_pos ⟨hj, hi⟩]
  simp only [corner_q, equatorG, if_true, show (2 : Nat) ≠ 1 by decide, if_false]
  rw [seed_q_gaussian_real, Real.sin_pi_div_two]
  have hexp : -((12 * (i : ℝ) / 6.0 * 1) ^ 2 * Real.log 2 / 4) = -((i : ℝ) ^ 2 * Real.log 2) := by
    norm_num
    ring
  rw [hexp]
  exact max_eq_left (le_of_lt (mul_pos gaussian_peak_pos (Real.exp_pos _)))

/-- C13, counterexample: with density `0` in every cell, the formula `gaussian`, the default
`rin = 6` and the equatorial geometry (unit cell widths and determinant), `SeedBField` writes
`B2 ≠ 0` at the interior cell `(2, 2, 2)`. -/
theorem C13_zero_density_gaussian_counterexample :
    (∀ k j i, vacuumReal "c.c.bulk.prims" prims.rho k j i = 0) ∧
    (SeedBField realDecs realMath equatorBlock vacuumReal (realPin "gaussian")).rc
      "c.c.bulk.prims" prims.B2 2 2 2 ≠ 0 := by
  refine ⟨fun _ _ _ => rfl, ?_⟩
  have hflag : b_field_flag ((realPin "gaussian").GetOrAddString "b_field" "type" "none") =
      .ok (some BSeedType.gaussian) := by
    simp [b_field_flag, realPin, ParameterInput.GetOrAddString]
  rw [SeedBField_of_flag realDecs realMath equatorBlock vacuumReal (realPin "gaussian")
    BSeedType.gaussian hflag]
  have hcell : ((2 : Int) ≤ 2 ∧ (2 : Int) ≤ 3) ∧ ((2 : Int) ≤ 2 ∧ (2 : Int) ≤ 4) ∧
      ((2 : Int) ≤ 2 ∧ (2 : Int) ≤ 5) := by decide
  simp only [Function.update_same, equatorBlock, sampleBlock, if_true,
    ParameterInput.GetOrAddReal, realPin, Option.getD_none, B_field_B_apply, if_pos hcell,
    show prims.B2 ≠ prims.B3 by decide, if_false]
  rw [equator_potential _ 2 2 (by decide) (by decide),
    equator_potential _ (2 + 1) 2 (by decide) (by decide),
    equator_potential _ 2 (2 + 1) (by decide) (by decide),
    equator_potential _ (2 + 1) (2 + 1) (by decide) (by decide)]
  have hlog : 0 < Real.log 2 := Real.log_pos (by norm_num)
  have hlt : Real.exp (-(((2 + 1 : Int) : ℝ) ^ 2 * Real.log 2)) <
      Real.exp (-(((2 : Int) : ℝ) ^ 2 * Real.log 2)) := by
    apply Real.exp_lt_exp.mpr
    push_cast
    nlinarith
  have hc := gaussian_peak_pos
  simp only [equatorG]
  have hpos : 0 < (1 / (Real.sqrt (2 * Real.pi) * (2 / Real.sqrt (2 * Real.log 2)))) *
      Real.exp (-(((2 : Int) : ℝ) ^ 2 * Real.log 2)) -
      (1 / (Real.sqrt (2 * Real.pi) * (2 / Real.sqrt (2 * Real.log 2)))) *
      Real.exp (-(((2 + 1 : Int) : ℝ) ^ 2 * Real.log 2)) := by
    have := mul_lt_mul_of_pos_left hlt hc
    linarith
  apply ne_of_gt
  apply div_pos
  · linarith
  · norm_num

/-- C14, the code at the failing input: in real arithmetic, for every `rin > 0`, the formula
`gaussian` reaches half of its peak value (the value at `x = 0`) at `x = 2`, that is at the
cylindrical radius `2*rin`, and its value at `x = 1` (cylindrical radius `rin`) is the peak
value times `exp(-(log 2)/4)`, which is not half of the peak value; the value does not depend
on the density nor on `min_rho_q`. -/
theorem C14_gaussian_half_maximum_at_two_rin (rin : ℝ) (hrin : 0 < rin)
    (mrq mrq' rho rho' r th : ℝ) :
    seed_q realMath BSeedType.gaussian rin mrq (2 * rin) (Real.pi / 2) rho =
      seed_q realMath BSeedType.gaussian rin mrq 0 (Real.pi / 2) rho / 2 ∧
    seed_q realMath BSeedType.gaussian rin mrq rin (Real.pi / 2) rho =
      seed_q realMath BSeedType.gaussian rin mrq 0 (Real.pi / 2) rho *
        Real.exp (-(Real.log 2 / 4)) ∧
    seed_q realMath BSeedType.gaussian rin mrq rin (Real.pi / 2) rho ≠
      seed_q realMath BSeedType.gaussian rin mrq 0 (Real.pi / 2) rho / 2 ∧
    seed_q realMath BSeedType.gaussian rin mrq r th rho =
      seed_q realMath BSeedType.gaussian rin mrq' r th rho' := by
  have hne : rin ≠ 0 := ne_of_gt hrin
  have hc := gaussian_peak_pos
  have h0 : -((0 / rin * 1) ^ 2 * Real.log 2 / 4) = 0 := by simp
  have h1 : -((rin / rin * 1) ^ 2 * Real.log 2 / 4) = -(Real.log 2 / 4) := by
    field_simp
  have h2 : -((2 * rin / rin * 1) ^ 2 * Real.log 2 / 4) = -Real.log 2 := by
    field_simp
    ring
  refine ⟨?_, ?_, ?_, rfl⟩
  · rw [seed_q_gaussian_real, seed_q_gaussian_real, Real.sin_pi_div_two, h2, h0,
      Real.exp_neg, Real.exp_log (by norm_num), Real.exp_zero]
    ring
  · rw [seed_q_gaussian_real, seed_q_gaussian_real, Real.sin_pi_div_two, h1, h0,
      Real.exp_zero]
    ring
  · rw [seed_q_gaussian_real, seed_q_gaussian_real, Real.sin_pi_div_two, h1, h0,
      Real.exp_zero]
    intro h
    have h3 : Real.exp (-(Real.log 2 / 4)) = 1 / 2 :=
      mul_left_cancel₀ (ne_of_gt hc) (h.trans (by ring))
    have h4 : Real.exp (-Real.log 2) = 1 / 2 := by
      rw [Real.exp_neg, Real.exp_log (by norm_num)]
      norm_num
    have h5 := Real.exp_injective (h3.trans h4.symm)
    have hlog : 0 < Real.log 2 := Real.log_pos (by norm_num)
    linarith

/-- C14 at the failing input `rin = 6`, `th = π/2`: half of the peak value is reached at
`r = 12`, not at `r = 6`. -/
theorem C14_gaussian_half_maximum_at_two_rin_witness :
    seed_q realMath BSeedType.gaussian 6 (1 / 5) (2 * 6) (Real.pi / 2) 1 =
      seed_q realMath BSeedType.gaussian 6 (1 / 5) 0 (Real.pi / 2) 1 / 2 ∧
    seed_q realMath BSeedType.gaussian 6 (1 / 5) 6 (Real.pi / 2) 1 =
      seed_q realMath BSeedType.gaussian 6 (1 / 5) 0 (Real.pi / 2) 1 *
        Real.exp (-(Real.log 2 / 4)) ∧
    seed_q realMath BSeedType.gaussian 6 (1 / 5) 6 (Real.pi / 2) 1 ≠
      seed_q realMath BSeedType.gaussian 6 (1 / 5) 0 (Real.pi / 2) 1 / 2 ∧
    seed_q realMath BSeedType.gaussian 6 (1 / 5) 6 (Real.pi / 2) 1 =
      seed_q realMath BSeedType.gaussian 6 0 6 (Real.pi / 2) 0 :=
  C14_gaussian_half_maximum_at_two_rin 6 (by norm_num) (1 / 5) 0 1 0 6 (Real.pi / 2)

end GaussianTheorems

/-! ## Further claims on `GetLocalBetaMin` and `UpdateContainer` -/

section FurtherTheorems

variable [LinearOrderedField K] {FV : Type}

/-- C15: the `beta` computed per cell in `GetLocalBetaMin` never divides by zero. For a cell
with `bsq >= 0` and `TINY_NUMBER > 0` the denominator `0.5*(bsq + TINY_NUMBER)` is strictly
positive, so that `beta` times the denominator gives back the pressure `p(rho, u)`, and in a
field-free cell (`bsq = 0`) `beta` equals `2*p(rho, u)/TINY_NUMBER`. -/
theorem C15_beta_denominator_positive (d : Decs K) (ph : Phys K FV) (G : GRCoordinates K)
    (eos : EOS K) (P : GridVars K) (k j i : Int)
    (hbsq : 0 ≤ ph.bsq_calc (ph.get_state G P k j i Loci.center))
    (htiny : 0 < d.TINY_NUMBER) :
    0 < 0.5 * (ph.bsq_calc (ph.get_state G P k j i Loci.center) + d.TINY_NUMBER) ∧
    beta_ij d ph G eos P k j i *
        (0.5 * (ph.bsq_calc (ph.get_state G P k j i Loci.center) + d.TINY_NUMBER)) =
      eos.p (P prims.rho k j i) (P prims.u k j i) ∧
    (ph.bsq_calc (ph.get_state G P k j i Loci.center) = 0 →
      beta_ij d ph G eos P k j i =
        2 * eos.p (P prims.rho k j i) (P prims.u k j i) / d.TINY_NUMBER) := by
  have hden : 0 < 0.5 * (ph.bsq_calc (ph.get_state G P k j i Loci.center) + d.TINY_NUMBER) := by
    have hsum : 0 < ph.bsq_calc (ph.get_state G P k j i Loci.center) + d.TINY_NUMBER :=
      add_pos_of_nonneg_of_pos hbsq htiny
    have hhalf : (0 : K) < 0.5 := by norm_num
    exact mul_pos hhalf hsum
  refine ⟨hden, ?_, ?_⟩
  · simp only [beta_ij]
    exact div_mul_cancel₀ _ (ne_of_gt hden)
  · intro h0
    simp only [beta_ij, h0, zero_add]
    have ht : d.TINY_NUMBER ≠ 0 := ne_of_gt htiny
    field_simp
    ring

/-- C15 at a sample input: the cell `(2, 3, 4)` of the sample block. -/
theorem C15_beta_denominator_positive_witness :
    0 < 0.5 * (samplePhys.bsq_calc (samplePhys.get_state sampleG sampleP 2 3 4 Loci.center) +
      sampleDecs.TINY_NUMBER) ∧
    beta_ij sampleDecs samplePhys sampleG (samplePhys.CreateEOS (4 / 3)) sampleP 2 3 4 *
        (0.5 * (samplePhys.bsq_calc (samplePhys.get_state sampleG sampleP 2 3 4 Loci.center) +
          sampleDecs.TINY_NUMBER)) =
      (samplePhys.CreateEOS (4 / 3)).p (sampleP prims.rho 2 3 4) (sampleP prims.u 2 3 4) ∧
    (samplePhys.bsq_calc (samplePhys.get_state sampleG sampleP 2 3 4 Loci.center) = 0 →
      beta_ij sampleDecs samplePhys sampleG (samplePhys.CreateEOS (4 / 3)) sampleP 2 3 4 =
        2 * (samplePhys.CreateEOS (4 / 3)).p (sampleP prims.rho 2 3 4) (sampleP prims.u 2 3 4) /
          sampleDecs.TINY_NUMBER) :=
  C15_beta_denominator_positive sampleDecs samplePhys sampleG (samplePhys.CreateEOS (4 / 3))
    sampleP 2 3 4 (by simp only [samplePhys]; positivity) (by norm_num [sampleDecs])

/-- C18: aliased first stage of `UpdateContainer`. When `stage_name[stage-1]` names the base
container itself, then for every blend weight `beta` the blend `beta*x + (1-beta)*x` leaves
that container, and every other one, unchanged, and `cout = base + beta*dt*dUdt` at every
entry; `base` is still unchanged at the end of the call when `cout` is another container. -/
theorem C18_aliased_first_stage (pmb : MeshBlock K) (rcs : ContainerCollection K)
    (stage : Int) (stage_name : List String) (integrator : Integrator K) (beta : K)
    (name_out : String)
    (hbeta : vector_at integrator.beta (stage - 1) = some beta)
    (hin : vector_at stage_name (stage - 1) = some "base")
    (hout : vector_at stage_name stage = some name_out) :
    ∃ rcs1 rcs', UpdateContainer_states pmb rcs stage stage_name integrator =
        some (rcs1, rcs') ∧
      UpdateContainer pmb rcs stage stage_name integrator = some (TaskStatus.complete, rcs') ∧
      rcs1 = rcs ∧
      (∀ v p k j i, rcs' name_out v p k j i =
        rcs "base" v p k j i + beta * pmb.dt * rcs "dUdt" v p k j i) ∧
      (name_out ≠ "base" → rcs' "base" = rcs "base") := by
  have hblend : blend_stage rcs "base" beta = rcs := by
    have hsame : parthenon.Update.AverageContainers (rcs "base") (rcs "base") beta =
        rcs "base" := by
      funext v p k j i
      simp only [parthenon.Update.AverageContainers]
      ring
    unfold blend_stage
    simp only [hsame, Function.update_eq_self]
  refine ⟨_, _, UpdateContainer_states_eq pmb rcs stage stage_name integrator beta "base"
    name_out hbeta hin hout, UpdateContainer_eq pmb rcs stage stage_name integrator beta
    "base" name_out hbeta hin hout, hblend, ?_, ?_⟩
  · intro v p k j i
    rw [hblend]
    simp only [update_stage, Function.update_same, parthenon.Update.UpdateContainer]
  · intro hne
    rw [hblend]
    simp only [update_stage, Function.update_noteq (Ne.symm hne)]

/-- C18 at a sample input: the first stage of the sample scheme with blend weight `1/2`. -/
theorem C18_aliased_first_stage_witness :
    ∃ rcs1 rcs', UpdateContainer_states sampleBlock sampleCollection 1 sampleStageNames
        sampleIntegratorHalf = some (rcs1, rcs') ∧
      UpdateContainer sampleBlock sampleCollection 1 sampleStageNames sampleIntegratorHalf =
        some (TaskStatus.complete, rcs') ∧
      rcs1 = sampleCollection ∧
      (∀ v p k j i, rcs' "stage1" v p k j i =
        sampleCollection "base" v p k j i +
          1 / 2 * sampleBlock.dt * sampleCollection "dUdt" v p k j i) ∧
      ("stage1" ≠ "base" → rcs' "base" = sampleCollection "base") :=
  C18_aliased_first_stage sampleBlock sampleCollection 1 sampleStageNames sampleIntegratorHalf
    (1 / 2) "stage1" (by simp [vector_at, sampleIntegratorHalf])
    (by simp [vector_at, sampleStageNames]) (by simp [vector_at, sampleStageNames])

end FurtherTheorems

/-! ## Array accesses of `SeedBField` -/

section AccessTheorems

variable [LinearOrderedField K]

/-- The corner average reads the density at the entries of `B_field_A_reads` and nowhere
else. -/
theorem rho_av_eq_reads (d : Decs K) (P : GridVars K) (j i : Int) :
    rho_av d P j i =
      0.25 * ((B_field_A_reads d.NGHOST j i).map
        (fun c => P prims.rho c.1 c.2.1 c.2.2)).sum := by
  simp only [rho_av, B_field_A_reads, List.map_cons, List.map_nil, List.sum_cons,
    List.sum_nil, add_zero]
  ring

/-- At an interior cell the curl step reads the potential at the entries of
`B_field_B_reads` and nowhere else. -/
theorem B_field_B_reads_only (G : GRCoordinates K) (A A' : PotentialArray K)
    (ks ke js je is ie : Int) (P : GridVars K) (p : prims) (k j i : Int)
    (hagree : ∀ c ∈ B_field_B_reads j i, A c.1 c.2 = A' c.1 c.2) :
    B_field_B G A ks ke js je is ie P p k j i = B_field_B G A' ks ke js je is ie P p k j i := by
  have h00 := hagree (j, i) (by simp [B_field_B_reads])
  have h10 := hagree (j + 1, i) (by simp [B_field_B_reads])
  have h01 := hagree (j, i + 1) (by simp [B_field_B_reads])
  have h11 := hagree (j + 1, i + 1) (by simp [B_field_B_reads])
  simp only at h00 h10 h01 h11
  rw [B_field_B_apply, B_field_B_apply, h00, h10, h01, h11]

/-- Index safety on a block with more than one cell in the first two directions and at least
one ghost layer: the potential entry written at every corner lies inside the potential array,
every potential entry read by the curl step at an interior cell has been written by the
potential step, and the density reads of every corner lie inside the primitive array when the
third direction has more than one cell too. -/
theorem SeedBField_index_safe (NGHOST nx1 nx2 nx3 : Int) (hng : 1 ≤ NGHOST)
    (h1 : 1 < nx1) (h2 : 1 < nx2) :
    (∀ j i, (blockShape NGHOST nx1 nx2 nx3).cornerWritten (j, i) →
      (blockShape NGHOST nx1 nx2 nx3).insidePotential (j, i) ∧
      (1 < nx3 →
        ∀ c ∈ B_field_A_reads NGHOST j i, (blockShape NGHOST nx1 nx2 nx3).inside c)) ∧
    (∀ j i,
      (blockShape NGHOST nx1 nx2 nx3).js IndexDomain.interior ≤ j ∧
        j ≤ (blockShape NGHOST nx1 nx2 nx3).je IndexDomain.interior →
      (blockShape NGHOST nx1 nx2 nx3).is IndexDomain.interior ≤ i ∧
        i ≤ (blockShape NGHOST nx1 nx2 nx3).ie IndexDomain.interior →
      ∀ c ∈ B_field_B_reads j i, (blockShape NGHOST nx1 nx2 nx3).cornerWritten c) := by
  constructor
  · intro j i hc
    simp only [IndexShape.cornerWritten, blockShape, axisFirst, axisLast, h1, h2,
      and_self, if_true] at hc
    obtain ⟨⟨hj1, hj2⟩, ⟨hi1, hi2⟩⟩ := hc
    constructor
    · simp only [IndexShape.insidePotential, blockShape, axisCells, h1, h2, if_true,
        show ¬ (IndexDomain.entire = IndexDomain.interior) by decide, if_false]
      omega
    · intro h3 c hmem
      simp only [B_field_A_reads, List.mem_cons, List.mem_singleton, List.not_mem_nil,
        or_false] at hmem
      rcases hmem with rfl | rfl | rfl | rfl <;>
        simp only [IndexShape.inside, blockShape, axisFirst, axisLast, h1, h2, h3,
          if_true, show ¬ (IndexDomain.entire = IndexDomain.interior) by decide, false_and,
          if_false] <;>
        omega
  · intro j i hj hi c hmem
    simp only [blockShape, axisFirst, axisLast, h1, h2, and_self, if_true] at hj hi
    simp only [B_field_B_reads, List.mem_cons, List.mem_singleton, List.not_mem_nil,
      or_false] at hmem
    rcases hmem with rfl | rfl | rfl | rfl <;>
      simp only [IndexShape.cornerWritten, blockShape, axisFirst, axisLast, h1, h2,
        and_self, if_true] <;>
      omega

/-- C17, the code at the failing input: on a block with a single cell in the third direction
(no ghost layer there, the only k-index is `0`) and `NGHOST >= 1`, every density read of the
kernel `B_field_A`, which addresses the layer `k = NGHOST`, lies outside the primitive array,
at every corner `(j, i)`. -/
theorem C17_density_read_out_of_bounds (NGHOST nx1 nx2 : Int) (hng : 1 ≤ NGHOST) (j i : Int) :
    ∀ c ∈ B_field_A_reads NGHOST j i, ¬ (blockShape NGHOST nx1 nx2 1).inside c := by
  intro c hmem
  simp only [B_field_A_reads, List.mem_cons, List.mem_singleton, List.not_mem_nil,
    or_false] at hmem
  rcases hmem with rfl | rfl | rfl | rfl <;>
    simp only [IndexShape.inside, blockShape, axisFirst, axisLast, lt_irrefl, and_false,
      if_false] <;>
    omega

/-- C17 at the failing input: a block of `4 x 3 x 1` interior cells with two ghost layers,
first corner `(2, 2)`; the four density reads address `k = 2`, the array has the single
layer `k = 0`. -/
theorem C17_density_read_out_of_bounds_witness :
    ¬ (blockShape 2 4 3 1).inside (2, 2, 2) ∧ ¬ (blockShape 2 4 3 1).inside (2, 2, 1) ∧
    ¬ (blockShape 2 4 3 1).inside (2, 1, 2) ∧ ¬ (blockShape 2 4 3 1).inside (2, 1, 1) :=
  ⟨C17_density_read_out_of_bounds 2 4 3 (by decide) 2 2 (2, 2, 2) (by decide),
    C17_density_read_out_of_bounds 2 4 3 (by decide) 2 2 (2, 2, 1) (by decide),
    C17_density_read_out_of_bounds 2 4 3 (by decide) 2 2 (2, 1, 2) (by decide),
    C17_density_read_out_of_bounds 2 4 3 (by decide) 2 2 (2, 1, 1) (by decide)⟩

end AccessTheorems

end Kharma
